import Mathlib

/-!
# VonSim — formal verification of core claims

A shallow embedding, in Lean 4, of the parts of the VonSim assembler and
simulator that the verified claims refer to, together with theorems settling
those claims.

The embedding follows the TypeScript sources:
* `VonSim.Common` — `packages/common/src/byte.ts` (fixed-width values).
* `VonSim.Legacy` — the `src/` codebase: `src/helpers.ts`,
  `src/simulator/environment/computer/index.ts` (ALU),
  the PIC device slice, and `src/compiler/analyzer/compute-addresses.ts`
  together with the parser.
* `VonSim.AppCompiler` — the semantic validator for unary instructions.
* `VonSim.Next` — the `packages/simulator` codebase (the `INT` instruction).

Machine integers are modelled as `Nat`/`Int` with explicit wrapping where the
source wraps.  Fallible operations return `Option`/`Except`.  Constants and
helper routines whose defining file is not part of the examined sources are
modelled from the specification and carry a doc comment saying so.
-/

namespace VonSim.Common

/-- JavaScript `input | 0`: coercion of a number to a 32-bit signed integer.
(`byte.ts`, private constructor: `this.#value = input | 0`.) -/
def toInt32 (v : Int) : Int :=
  (v + 2 ^ 31) % 2 ^ 32 - 2 ^ 31

/-- JavaScript `Number.isSafeInteger` restricted to mathematical integers:
the magnitude is at most `2^53 - 1`. -/
def isSafeInteger (v : Int) : Bool :=
  -(2 ^ 53 - 1) ≤ v && v ≤ 2 ^ 53 - 1

/-- A fixed-width value (`Byte` class of `packages/common/src/byte.ts`).
`value` is the stored (unsigned) representation, `size` the width in bits
(8 or 16 in the source,`ByteSize`). -/
structure Byte where
  value : Int
  size : Nat
deriving DecidableEq, Repr

/-- `Byte.maxValue(size)` — `2 ** size - 1`. -/
def maxValue (size : Nat) : Int := 2 ^ size - 1

/-- `Byte.minSignedValue(size)` — `-(2 ** (size - 1))`. -/
def minSignedValue (size : Nat) : Int := -(2 ^ (size - 1))

/-- `Byte.maxSignedValue(size)` — `2 ** (size - 1) - 1`. -/
def maxSignedValue (size : Nat) : Int := 2 ^ (size - 1) - 1

/-- The private constructor `new Byte(input, size)`, which stores `input | 0`. -/
def mkByte (input : Int) (size : Nat) : Byte :=
  ⟨toInt32 input, size⟩

/-- `Byte.fitsUnsigned(value, size)`. -/
def fitsUnsigned (value : Int) (size : Nat) : Bool :=
  isSafeInteger value && 0 ≤ value && value ≤ maxValue size

/-- `Byte.fitsSigned(value, size)`. -/
def fitsSigned (value : Int) (size : Nat) : Bool :=
  isSafeInteger value && minSignedValue size ≤ value && value ≤ maxSignedValue size

/-- `Byte.fromUnsigned(value, size)`; the `RangeError` throw is modelled as
`none`. -/
def fromUnsigned (value : Int) (size : Nat) : Option Byte :=
  if fitsUnsigned value size then some (mkByte value size) else none

/-- `Byte.fromSigned(value, size)`; the `RangeError` throw is modelled as
`none`. -/
def fromSigned (value : Int) (size : Nat) : Option Byte :=
  if fitsSigned value size then
    if value < 0 then some (mkByte (value + maxValue size + 1) size)
    else some (mkByte value size)
  else none

/-- The `unsigned` getter. -/
def unsigned (b : Byte) : Int := b.value

/-- The `signed` getter (two's complement reading of the stored value). -/
def signed (b : Byte) : Int :=
  if b.value ≤ maxSignedValue b.size then b.value
  else b.value - (maxValue b.size + 1)

end VonSim.Common

namespace VonSim.Legacy

/-- Operand/result widths (`Size` of the legacy `config`). -/
inductive Size where
  | byte
  | word
deriving DecidableEq, Repr

/-- Modelled from the spec: the legacy `config` module is not among the
examined sources.  A fixed-width value of size n stores an unsigned integer
in [0, 2^n − 1], so `MAX_VALUE` is 255 for bytes and 65535 for words. -/
def MAX_VALUE : Size → Int
  | .byte => 255
  | .word => 65535

/-- Modelled from the spec: largest two's-complement signed value,
127 for bytes and 32767 for words. -/
def MAX_SIGNED_VALUE : Size → Int
  | .byte => 127
  | .word => 32767

/-- Modelled from the spec: smallest two's-complement signed value,
−128 for bytes and −32768 for words. -/
def MIN_SIGNED_VALUE : Size → Int
  | .byte => -128
  | .word => -32768

/-- Modelled from the spec: RAM is the 16 KiB range `0000h`–`3FFFh`,
so `MIN_MEMORY_ADDRESS = 0` and `MAX_MEMORY_ADDRESS = 0x3FFF`. -/
def MAX_MEMORY_ADDRESS : Nat := 0x3FFF

/-- Modelled from the spec: the interrupt-vector-table entry for interrupt
`ID` sits at memory address `ID × 4`. -/
def INTERRUPT_VECTOR_ADDRESS_SIZE : Nat := 4

/-- `joinLowHigh(low, high)` of `src/helpers.ts`: `(high << 8) | low`. -/
def joinLowHigh (low high : Nat) : Nat :=
  (high <<< 8) ||| low

/-- `splitLowHigh(value)` of `src/helpers.ts`:
`[value & 0xff, (value >> 8) & 0xff]`. -/
def splitLowHigh (value : Nat) : Nat × Nat :=
  (value &&& 0xff, (value >>> 8) &&& 0xff)

/-- `unsignedToSigned(n, size)` of `src/helpers.ts`:
`n > MAX_VALUE[size] ? MAX_VALUE[size] - n : n`. -/
def unsignedToSigned (n : Int) (size : Size) : Int :=
  if n > MAX_VALUE size then MAX_VALUE size - n else n

/-- `signedToUnsigned(n, size)` of `src/helpers.ts`:
`n < 0 ? MAX_SIGNED_VALUE[size] - n : n`. -/
def signedToUnsigned (n : Int) (size : Size) : Int :=
  if n < 0 then MAX_SIGNED_VALUE size - n else n

/-- The ALU flags record of the legacy computer store
(`alu.flags` in `src/simulator/environment/computer/index.ts`). -/
structure Flags where
  carry : Bool
  overflow : Bool
  sign : Bool
  zero : Bool
deriving DecidableEq, Repr

/-- The initial ALU flags (`alu` initializer in the computer store). -/
def initialFlags : Flags :=
  { carry := false, overflow := false, sign := false, zero := true }

/-- Arithmetic ALU operations (`ArithmeticOperation`). -/
inductive ArithmeticOperation where
  | ADD
  | ADC
  | SUB
  | SBB
deriving DecidableEq, Repr

/-- `executeArithmetic(operation, uleft, uright, size)` of
`src/simulator/environment/computer/index.ts`.  `flagsIn` is the ALU flag
state read through `get().alu.flags` (used by ADC/SBB); the function returns
the wrapped unsigned result together with the flags it stores. -/
def executeArithmetic (operation : ArithmeticOperation) (uleft uright : Int)
    (size : Size) (flagsIn : Flags) : Int × Flags :=
  let left := unsignedToSigned uleft size
  let right := unsignedToSigned uright size
  let carryIn : Int := if flagsIn.carry then 1 else 0
  let uresult : Int :=
    match operation with
    | .ADD => uleft + uright
    | .ADC => uleft + uright + carryIn
    | .SUB => uleft - uright
    | .SBB => uleft - uright - carryIn
  let result : Int :=
    match operation with
    | .ADD => left + right
    | .ADC => left + right + carryIn
    | .SUB => left - right
    | .SBB => left - right - carryIn
  let max := MAX_VALUE size
  let maxSigned := MAX_SIGNED_VALUE size
  let minSigned := MIN_SIGNED_VALUE size
  let flags : Flags :=
    { carry := uresult < 0 || uresult > max
      overflow := result < minSigned || result > maxSigned
      sign := result < 0
      zero := result = 0 }
  let wrapped : Int :=
    if uresult > max then uresult - max - 1
    else if uresult < 0 then uresult + max + 1
    else uresult
  (wrapped, flags)

/-- The program `MOV AL, 0FFh; ADD AL, 1; HLT` run at the ALU level.
Modelled from the spec: the instruction runner (`runInstruction`) is not
among the examined sources; per the spec, `MOV AL, 0FFh` loads 0FFh into AL,
`ADD AL, 1` runs the 8-bit ALU addition of AL and 1 (storing the result in
AL and the flags in FLAGS), and `HLT` stops.  The ALU itself is
`executeArithmetic`, straight from the source. -/
def runCarryProgram : Int × Flags :=
  let al : Int := 0xFF
  executeArithmetic .ADD al 1 .byte initialFlags

/-- Modelled from the spec: the `bit` helper imported by the PIC slice simply
reads bit `i` of a register value. -/
def bit (v : Nat) (i : Nat) : Bool := v.testBit i

/-- The PIC register file (`createPICSlice` initializers).  `INTn i` is the
per-line vector register `INT0`…`INT7`. -/
structure PICRegs where
  EOI : Nat
  IMR : Nat
  IRR : Nat
  ISR : Nat
  INTn : Nat → Nat

/-- The initial PIC state: `EOI = 00h`, `IMR = FFh`, `IRR = 00h`,
`ISR = 00h`, `INT0..INT7 = 10h..17h`. -/
def initialPIC : PICRegs :=
  { EOI := 0, IMR := 0xFF, IRR := 0, ISR := 0, INTn := fun i => 0x10 + i }

/-- The simulator state the PIC slice operates on: the PIC registers plus the
CPU state `update()` touches (IF as `interruptsEnabled`, IP, SP, the flags
and the byte-addressed memory). -/
structure CState where
  pic : PICRegs
  interruptsEnabled : Bool
  flags : Flags
  IP : Nat
  SP : Nat
  memory : Nat → Nat

/-- Runtime errors produced by the modelled PIC/CPU operations. -/
inductive SimError where
  | reservedInterrupt
  | memoryOutOfRange
  | stackOverflow
deriving DecidableEq, Repr

/-- A word-sized `getMemory` (little endian), per
`src/simulator/environment/computer/index.ts`: fails when the address is
outside `[MIN_MEMORY_ADDRESS, MAX_MEMORY_ADDRESS - 1]`. -/
def getMemoryWord (s : CState) (address : Nat) : Option Nat :=
  if address > MAX_MEMORY_ADDRESS - 1 then none
  else some (joinLowHigh (s.memory address) (s.memory (address + 1)))

/-- A word-sized `setMemory` (little endian), same bounds check; writes the
low byte at `address` and the high byte at `address + 1`. -/
def setMemoryWord (s : CState) (address value : Nat) : Option CState :=
  if address > MAX_MEMORY_ADDRESS - 1 then none
  else some { s with memory := (fun a =>
    if a = address then (splitLowHigh value).1
    else if a = address + 1 then (splitLowHigh value).2
    else s.memory a) }

/-- Modelled from the spec: `encodeFlags` packs the flag booleans
(CF, ZF, SF, OF and IF) into a word.  The spec fixes the flag set but not the
bit layout, so an arbitrary injective layout is used; no verified claim
depends on the layout. -/
def encodeFlags (s : CState) : Nat :=
  (if s.flags.carry then 1 else 0) + (if s.flags.zero then 2 else 0)
  + (if s.flags.sign then 4 else 0) + (if s.flags.overflow then 8 else 0)
  + (if s.interruptsEnabled then 16 else 0)

/-- Modelled from the spec: `pushToStack` decrements SP by 2 and writes the
word little-endian, failing on stack overflow (SP would wrap below 0) or on
an out-of-range memory write. -/
def pushToStack (s : CState) (v : Nat) : Option CState :=
  if s.SP < 2 then none
  else (setMemoryWord s (s.SP - 2) v).map fun t => { t with SP := s.SP - 2 }

/-- Modelled from the spec: `interruptPattern` matches the reserved interrupt
IDs, which the spec fixes as 0..7 (reserved for CPU-managed INTs). -/
def interruptPatternMatches (id : Nat) : Bool := id ≤ 7

/-- The `for (let i = 0; i < 8; i++)` search of `pic.update()`: skip masked
lines (`bit(IMR, i)`), skip non-requested lines (`!bit(IRR, i)`), and stop at
the first line that is requested and unmasked.  The first argument counts the
loop iterations still allowed (8 at entry), making the recursion
structural. -/
def findLineAux (IMR IRR : Nat) : Nat → Nat → Option Nat
  | 0, _ => none
  | k + 1, i =>
    if i < 8 then
      if bit IMR i then findLineAux IMR IRR k (i + 1)
      else if !bit IRR i then findLineAux IMR IRR k (i + 1)
      else some i
    else none

/-- The full loop, started at line 0 with its 8 iterations. -/
def findLine (IMR IRR : Nat) : Option Nat := findLineAux IMR IRR 8 0

/-- The dispatch block inside `pic.update()` once a line has been accepted:
read the IVT word at `ID * INTERRUPT_VECTOR_ADDRESS_SIZE`, push the encoded
FLAGS, push IP, and load IP with the vector word.  On an error the state
reached so far is kept, as in the source (each `set` has already run). -/
def dispatchInterrupt (s : CState) (id : Nat) : CState × Option SimError :=
  match getMemoryWord s (id * INTERRUPT_VECTOR_ADDRESS_SIZE) with
  | none => (s, some .memoryOutOfRange)
  | some address =>
    match pushToStack s (encodeFlags s) with
    | none => (s, some .stackOverflow)
    | some s2 =>
      match pushToStack s2 s2.IP with
      | none => (s2, some .stackOverflow)
      | some s3 => ({ s3 with IP := address }, none)

/-- `pic.update()` of the PIC slice (`createPICSlice`). -/
def update (s : CState) : CState × Option SimError :=
  if s.pic.ISR ≠ 0 then
    if s.pic.EOI = 0x20 then
      ({ s with pic := { s.pic with EOI := 0, ISR := 0 } }, none)
    else (s, none)
  else if !s.interruptsEnabled then (s, none)
  else
    match findLine s.pic.IMR s.pic.IRR with
    | none => (s, none)
    | some i =>
      let id := s.pic.INTn i
      if interruptPatternMatches id then (s, some .reservedInterrupt)
      else
        let s1 := { s with pic := { s.pic with
          EOI := 0, IRR := s.pic.IRR ^^^ (1 <<< i), ISR := 1 <<< i } }
        dispatchInterrupt s1 id

/-- `pic.request(n)`: `IRR |= 1 << n`. -/
def request (s : CState) (n : Fin 8) : CState :=
  { s with pic := { s.pic with IRR := s.pic.IRR ||| (1 <<< n.val) } }

/-- `pic.cancel(n)`: `IRR &= ~(1 << n)`. -/
def cancel (s : CState) (n : Fin 8) : CState :=
  { s with pic := { s.pic with IRR := Nat.ldiff s.pic.IRR (1 <<< n.val) } }

/-- An I/O write of `20h` to the EOI register (port 10h–17h region). -/
def writeEOI (s : CState) : CState :=
  { s with pic := { s.pic with EOI := 0x20 } }

/-- The PIC operations quantified over by the ISR invariant claim. -/
inductive PICOp where
  | request (n : Fin 8)
  | cancel (n : Fin 8)
  | update
  | eoiWrite
deriving DecidableEq

/-- One step of the operation sequence (the result of a failed `update` keeps
the state reached when the error was reported, as in the source). -/
def applyPICOp (s : CState) : PICOp → CState
  | .request n => request s n
  | .cancel n => cancel s n
  | .update => (update s).1
  | .eoiWrite => writeEOI s

/-- A whole operation sequence, applied in order. -/
def runPICOps (ops : List PICOp) (s : CState) : CState :=
  ops.foldl applyPICOp s

/-- Replaces the PIC registers of a state by the initial ones. -/
def withInitialPIC (s : CState) : CState :=
  { s with pic := initialPIC }

/-- "At most one bit set": any two set bit positions coincide. -/
def atMostOneBit (v : Nat) : Prop :=
  ∀ i j, v.testBit i = true → v.testBit j = true → i = j

/-- Compile errors produced by `computeAddresses`
(`src/compiler/analyzer/compute-addresses.ts`). -/
inductive AddrError where
  | missingOrg
  | instructionOutOfRange
  | occupiedAddress
deriving DecidableEq, Repr

/-- The kind of a statement that occupies memory (used both for the label
table and for the `instructionPattern` test). -/
inductive EmitKind where
  | DB
  | DW
  | instr
deriving DecidableEq, Repr

/-- A validated statement as consumed by `computeAddresses`: EQU and END
statements (skipped), origin changes, and statements that occupy memory
(data directives and instructions) carrying their optional label and the
byte length precomputed by the validator (`meta.length`). -/
inductive VStatement where
  | equ
  | endDirective
  | originChange (newAddress : Nat)
  | emit (label : Option String) (kind : EmitKind) (length : Nat)
deriving DecidableEq, Repr

/-- The label kinds recorded in `labelAddresses`
(`"DB" | "DW" | "instruction"`). -/
inductive LabelKind where
  | DB
  | DW
  | instruction
deriving DecidableEq, Repr

/-- `statement.type === "DB" || statement.type === "DW" ? statement.type :
"instruction"`. -/
def labelKindOf : EmitKind → LabelKind
  | .DB => .DB
  | .DW => .DW
  | .instr => .instruction

/-- The mutable state of the `computeAddresses` walk: the occupied- and
code-address sets, the label table (an association list; the parser already
rejected duplicate labels, so appending models `Map.set`), the assembly
pointer (`null` before the first ORG), the `(start, length)` pairs written
into each statement's `meta.start`, and the errors collected by
`safeForEach`. -/
structure AState where
  occupied : Finset Nat
  codeMemory : Finset Nat
  labelAddresses : List (String × LabelKind × Nat)
  pointer : Option Nat
  emitted : List (Nat × Nat)
  errors : List AddrError

/-- The state `computeAddresses` starts from. -/
def initialAState : AState := ⟨∅, ∅, [], none, [], []⟩

/-- The `for (; pointer < finalPointer; pointer++)` loop: occupy addresses
one by one, stopping with `occupied-address` at the first address already
occupied (where the `throw` leaves the pointer).  The fuel argument is the
number of loop iterations still allowed (the statement length at entry),
so the recursion is structural.  Returns the final pointer, the two address
sets and the error, if any. -/
def occupyLoop (isInstr : Bool) (finalPointer : Nat) :
    Nat → Nat → Finset Nat → Finset Nat →
    Nat × Finset Nat × Finset Nat × Option AddrError
  | 0, p, occ, code => (p, occ, code, none)
  | fuel + 1, p, occ, code =>
    if p < finalPointer then
      if p ∈ occ then (p, occ, code, some .occupiedAddress)
      else occupyLoop isInstr finalPointer fuel (p + 1) (insert p occ)
        (if isInstr then insert p code else code)
    else (p, occ, code, none)

/-- One iteration of the `safeForEach` over statements in
`computeAddresses`: EQU/END are skipped, ORG sets the pointer, any other
statement needs a pointer (`missing-org`), records its label, sets
`meta.start`, is bounds-checked (`instruction-out-of-range` when
`finalPointer > MAX_MEMORY_ADDRESS`) and then occupies its addresses.
A thrown error is appended and the walk continues with the next statement,
keeping the mutations made so far. -/
def stepStatement (s : AState) : VStatement → AState
  | .equ => s
  | .endDirective => s
  | .originChange a => { s with pointer := some a }
  | .emit label kind length =>
    match s.pointer with
    | none => { s with errors := s.errors ++ [.missingOrg] }
    | some p =>
      let s1 := match label with
        | none => s
        | some l => { s with labelAddresses :=
            s.labelAddresses ++ [(l, labelKindOf kind, p)] }
      let s2 := { s1 with emitted := s1.emitted ++ [(p, length)] }
      let finalPointer := p + length
      if finalPointer > MAX_MEMORY_ADDRESS then
        { s2 with errors := s2.errors ++ [.instructionOutOfRange] }
      else
        let r := occupyLoop (kind == .instr) finalPointer length p
          s2.occupied s2.codeMemory
        { s2 with
          pointer := some r.1
          occupied := r.2.1
          codeMemory := r.2.2.1
          errors := s2.errors ++ r.2.2.2.toList }

/-- `computeAddresses(statements)`: the full walk. -/
def computeAddresses (statements : List VStatement) : AState :=
  statements.foldl stepStatement initialAState

/-- The address range `[start, start + length)` of an emitted statement. -/
def rangeOf (e : Nat × Nat) : Finset Nat := Finset.Ico e.1 (e.1 + e.2)

/-- The union of the address ranges of a list of emitted statements. -/
def rangesUnion (es : List (Nat × Nat)) : Finset Nat :=
  es.foldr (fun e acc => rangeOf e ∪ acc) ∅

/-- Two emitted statements occupy disjoint ranges. -/
def rangesDisjoint (a b : Nat × Nat) : Prop :=
  Disjoint (rangeOf a) (rangeOf b)

/-- The layout example used as a witness: two placed statements and one
labelled data byte. -/
def layoutExample : List VStatement :=
  [.originChange 0x1000, .emit (some "X") .DB 1, .originChange 0x2000,
   .emit none .instr 2, .endDirective]

/-- A walk state with address 1000h already occupied, used to witness the
overlap rejection. -/
def collisionState : AState :=
  { occupied := {0x1000}, codeMemory := ∅, labelAddresses := []
    pointer := some 0x1000, emitted := [(0x1000, 1)], errors := [] }

/-- A concrete state used to exercise a hardware dispatch: line 0 pending and
unmasked, vector `INT0 = 10h` (not reserved), interrupts enabled, empty
memory, SP at the top of memory. -/
def dispatchExample : CState :=
  { pic := { EOI := 0, IMR := 0, IRR := 1, ISR := 0, INTn := fun i => 0x10 + i }
    interruptsEnabled := true
    flags := { carry := true, overflow := false, sign := false, zero := false }
    IP := 0x2005
    SP := 0x4000
    memory := fun a => if a = 0x40 then 0x34 else if a = 0x41 then 0x12 else 0 }

/-- A concrete state whose pending line 0 carries the reserved vector 0. -/
def reservedExample : CState :=
  { pic := { EOI := 0, IMR := 0, IRR := 1, ISR := 0, INTn := fun _ => 0 }
    interruptsEnabled := true
    flags := { carry := false, overflow := false, sign := false, zero := false }
    IP := 0x2000
    SP := 0x4000
    memory := fun _ => 0 }

end VonSim.Legacy

namespace VonSim.AppCompiler

/-- CPU register names usable as operands (`RegisterType`). -/
inductive Reg where
  | AX
  | BX
  | CX
  | DX
  | SP
  | AL
  | AH
  | BL
  | BH
  | CL
  | CH
  | DL
  | DH
deriving DecidableEq, Repr

/-- Modelled from the spec: `wordRegisterPattern` (the patterns module is not
among the examined sources) matches the word registers AX, BX, CX, DX and
SP; the byte halves are the 8-bit registers. -/
def isWordRegister : Reg → Bool
  | .AX | .BX | .CX | .DX | .SP => true
  | _ => false

/-- Operand sizes inferred by the validator (`Size` = `"byte" | "word"`). -/
inductive OpSize where
  | byte
  | word
deriving DecidableEq, Repr

/-- The size annotation of a memory operand
(`"auto" | "byte" | "word"`, from `[...]`, `BYTE PTR [...]`,
`WORD PTR [...]`). -/
inductive MemSize where
  | auto
  | byte
  | word
deriving DecidableEq, Repr

/-- Unary operators inside number expressions. -/
inductive UnOp where
  | plus
  | minus
deriving DecidableEq, Repr

/-- Binary operators inside number expressions. -/
inductive ExprBinOp where
  | plus
  | minus
  | times
deriving DecidableEq, Repr

/-- Number expressions of the parser grammar (`NumberExpression`). -/
inductive NumberExpression where
  | numberLiteral (value : Int)
  | label (value : String) (offset : Bool)
  | unaryOp (op : UnOp) (right : NumberExpression)
  | binaryOp (op : ExprBinOp) (left right : NumberExpression)
deriving DecidableEq, Repr

/-- The addressing mode of a memory operand. -/
inductive AddrMode where
  | direct (value : NumberExpression)
  | indirect
deriving DecidableEq, Repr

/-- Parser operands (`Operand`): a register, an address (direct or
BX-indirect, with a size annotation), or a bare number expression (an
immediate — or a data label, which arrives as an expression that is a single
label without `OFFSET`). -/
inductive Operand where
  | register (value : Reg)
  | address (size : MemSize) (mode : AddrMode)
  | expr (e : NumberExpression)
deriving DecidableEq, Repr

/-- Label kinds from `get-label-types` (`LabelTypes`). -/
inductive LabelType where
  | DB
  | DW
  | instruction
  | EQU
deriving DecidableEq, Repr

/-- The compiler errors thrown by `validateUnaryInstruction`. -/
inductive CErr where
  | expectsOneOperand
  | unknownSize
  | destinationCannotBeImmediate
  | labelNotFound (l : String)
  | labelShouldBeWritable (l : String)
deriving DecidableEq, Repr

/-- The unary instruction mnemonics (`UnaryInstructionType`). -/
inductive UnaryOp where
  | INC
  | DEC
  | NEG
  | NOTm
deriving DecidableEq, Repr

/-- `ValidatedMeta`: the label, start address (0 until `computeAddresses`
assigns it) and encoded byte length recorded by the validator. -/
structure ValidatedMeta where
  label : Option String
  start : Nat
  length : Nat
deriving DecidableEq, Repr

/-- The validated `out` operand of a unary instruction. -/
inductive UnaryOut where
  | register (register : Reg)
  | memoryDirect (address : NumberExpression)
  | memoryIndirect
deriving DecidableEq, Repr

/-- `ValidatedUnaryInstruction`. -/
structure ValidatedUnaryInstruction where
  type : UnaryOp
  meta : ValidatedMeta
  opSize : OpSize
  out : UnaryOut
deriving DecidableEq, Repr

/-- `validateUnaryInstruction(instruction, labels)` of the unary validator:
register operands validate with length 2, sized direct memory operands with
length 3, sized `[BX]` operands with length 1, and a bare data label (a
single-label expression without `OFFSET`, naming a DB or DW) is converted to
a direct memory operand with length 3.  Everything else is an error. -/
def validateUnaryInstruction (instr : UnaryOp) (label : Option String)
    (operands : List Operand) (labels : String → Option LabelType) :
    Except CErr ValidatedUnaryInstruction :=
  match operands with
  | [out] =>
    match out with
    | .register v =>
      let size := if isWordRegister v then OpSize.word else OpSize.byte
      .ok { type := instr, meta := { label := label, start := 0, length := 2 }
            opSize := size, out := .register v }
    | .address size (.direct value) =>
      match size with
      | .auto => .error .unknownSize
      | .byte =>
        .ok { type := instr, meta := { label := label, start := 0, length := 3 }
              opSize := .byte, out := .memoryDirect value }
      | .word =>
        .ok { type := instr, meta := { label := label, start := 0, length := 3 }
              opSize := .word, out := .memoryDirect value }
    | .address size .indirect =>
      match size with
      | .auto => .error .unknownSize
      | .byte =>
        .ok { type := instr, meta := { label := label, start := 0, length := 1 }
              opSize := .byte, out := .memoryIndirect }
      | .word =>
        .ok { type := instr, meta := { label := label, start := 0, length := 1 }
              opSize := .word, out := .memoryIndirect }
    | .expr e =>
      match e with
      | .label l false =>
        match labels l with
        | none => .error (.labelNotFound l)
        | some .DB =>
          .ok { type := instr
                meta := { label := label, start := 0, length := 3 }
                opSize := .byte, out := .memoryDirect (.label l true) }
        | some .DW =>
          .ok { type := instr
                meta := { label := label, start := 0, length := 3 }
                opSize := .word, out := .memoryDirect (.label l true) }
        | some _ => .error (.labelShouldBeWritable l)
      | _ => .error .destinationCannotBeImmediate
  | _ => .error .expectsOneOperand

/-- The encoded length of each accepted unary-operand shape, as the code
actually records it: 2 for a register, 1 for `[BX]`, 3 for direct memory and
for a data label. -/
def expectedUnaryLength : Operand → Nat
  | .register _ => 2
  | .address _ .indirect => 1
  | .address _ (.direct _) => 3
  | .expr _ => 3

/-- An empty label table. -/
def emptyLabels : String → Option LabelType := fun _ => none

end VonSim.AppCompiler

namespace VonSim.Next

/-- The CPU flag booleans of the new simulator (CF, ZF, SF, IF, OF). -/
structure NFlags where
  CF : Bool
  ZF : Bool
  SF : Bool
  IF : Bool
  OF : Bool
deriving DecidableEq, Repr

/-- Modelled from the spec: FLAGS is a 16-bit register holding the flag
booleans.  The spec fixes the flag set but not the bit layout, so the 8086
layout is used (CF bit 0, ZF bit 6, SF bit 7, IF bit 9, OF bit 11); no
verified claim depends on the layout. -/
def encodeFlags (f : NFlags) : Nat :=
  (if f.CF then 1 else 0) + (if f.ZF then 64 else 0)
  + (if f.SF then 128 else 0) + (if f.IF then 512 else 0)
  + (if f.OF then 2048 else 0)

/-- Modelled from the spec: the inverse reading of the FLAGS word. -/
def decodeFlags (w : Nat) : NFlags :=
  { CF := w.testBit 0, ZF := w.testBit 6, SF := w.testBit 7
    IF := w.testBit 9, OF := w.testBit 11 }

/-- Modelled from the spec: RAM is 16 KiB (`0000h`–`3FFFh`). -/
def MEMORY_SIZE : Nat := 0x4000

/-- The CPU/memory state the `INT` routines touch.  The visualization-only
registers (`ri`, `id`, MAR, MBR) that the generator reports through events
are not part of the model. -/
structure NState where
  flags : NFlags
  SP : Nat
  BX : Nat
  AL : Nat
  memory : Nat → Nat

/-- Modelled from the spec: `pushToStack` decrements SP by 2 and writes the
word little-endian; stack overflow when SP would wrap below 0. -/
def pushToStack (s : NState) (v : Nat) : Option NState :=
  if s.SP < 2 then none
  else some { s with
    SP := s.SP - 2
    memory := (fun x =>
      if x = s.SP - 2 then v % 256
      else if x = s.SP - 2 + 1 then v / 256 % 256
      else s.memory x) }

/-- Modelled from the spec: `popFromStack` reads the word at SP
(little-endian) and increments SP by 2; stack underflow when SP would exceed
the memory top. -/
def popFromStack (s : NState) : Option (Nat × NState) :=
  if s.SP + 2 > MEMORY_SIZE then none
  else some (s.memory s.SP + 256 * s.memory (s.SP + 1),
    { s with SP := s.SP + 2 })

/-- Modelled from the spec: `memory.write` validates the address
(RAM is `0000h`–`3FFFh`). -/
def memWrite (s : NState) (a v : Nat) : Option NState :=
  if a < MEMORY_SIZE then
    some { s with memory := (fun x => if x = a then v else s.memory x) }
  else none

/-- Modelled from the spec: `memory.read` validates the address. -/
def memRead (s : NState) (a : Nat) : Option Nat :=
  if a < MEMORY_SIZE then some (s.memory a) else none

/-- The console-output loop of `INT 7` (`for (let i = 0; i < length; i++)`):
read the byte at `start + i` and write it to the console; a failed read
aborts.  Reads do not change the state; the collected characters are
returned.  The second `Nat` is the remaining iteration count (`length` at
entry), making the recursion structural. -/
def int7Loop (s : NState) (start : Nat) : Nat → Nat → Option (List Nat)
  | _, 0 => some []
  | i, rem + 1 =>
    match memRead s (start + i) with
    | none => none
    | some c => (int7Loop s start (i + 1) rem).map fun cs => c :: cs

/-- `INT 6` of `INTInstruction.execute` (cases 6/7 of the switch): push
FLAGS, clear IF, store the console character at `[BX]`, then pop FLAGS.
`none` models the `return false` paths (stack overflow / memory error). -/
def executeINT6 (s : NState) (char : Nat) : Option NState :=
  match pushToStack s (encodeFlags s.flags) with
  | none => none
  | some s1 =>
    let s2 := { s1 with flags := { s1.flags with IF := false } }
    match memWrite s2 s2.BX char with
    | none => none
    | some s3 =>
      match popFromStack s3 with
      | none => none
      | some (w, s4) => some { s4 with flags := decodeFlags w }

/-- `INT 7` of `INTInstruction.execute`: push FLAGS, clear IF, write the AL
bytes starting at `[BX]` to the console, then pop FLAGS.  Returns the
console output together with the final state. -/
def executeINT7 (s : NState) : Option (List Nat × NState) :=
  match pushToStack s (encodeFlags s.flags) with
  | none => none
  | some s1 =>
    let s2 := { s1 with flags := { s1.flags with IF := false } }
    match int7Loop s2 s2.BX 0 s2.AL with
    | none => none
    | some out =>
      match popFromStack s2 with
      | none => none
      | some (w, s4) => some (out, { s4 with flags := decodeFlags w })

/-- A state in which `INT 6` stores its character on top of the saved FLAGS:
`BX` points at the stack byte where the low half of FLAGS was pushed. -/
def clobberExample : NState :=
  { flags := { CF := true, ZF := false, SF := false, IF := true, OF := false }
    SP := 0x4000
    BX := 0x3FFE
    AL := 0
    memory := fun _ => 0 }

/-- A well-separated state for the witness: `BX` far away from the stack. -/
def int6Example : NState :=
  { flags := { CF := true, ZF := true, SF := false, IF := true, OF := false }
    SP := 0x4000
    BX := 0x1000
    AL := 1
    memory := fun _ => 0x41 }

end VonSim.Next

namespace VonSim.Legacy

/-- Instruction mnemonic tokens (`INSTRUCTIONS` of the lexer). -/
inductive Mnemonic where
  | MOV
  | ADD
  | ADC
  | SUB
  | SBB
  | CMP
  | NEG
  | INC
  | DEC
  | AND
  | OR
  | XOR
  | NOT
  | PUSH
  | POP
  | PUSHF
  | POPF
  | IN
  | OUT
  | JMP
  | JC
  | JNC
  | JZ
  | JNZ
  | JS
  | JNS
  | JO
  | JNO
  | CALL
  | RET
  | IRET
  | INT
  | CLI
  | STI
  | HLT
  | NOP
deriving DecidableEq, Repr

/-- Register tokens (`REGISTERS` of the lexer). -/
inductive RegTok where
  | AX
  | BX
  | CX
  | DX
  | SP
  | IP
  | AL
  | AH
  | BL
  | BH
  | CL
  | CH
  | DL
  | DH
deriving DecidableEq, Repr

/-- Token types of the lexer (`TokenType`). -/
inductive TokT where
  | EOL
  | EOF
  | ORG
  | END
  | IDENTIFIER
  | COLON
  | COMMA
  | STRING
  | QUESTION_MARK
  | NUMBER
  | PLUS
  | MINUS
  | ASTERISK
  | LEFT_PAREN
  | RIGHT_PAREN
  | LEFT_BRACKET
  | RIGHT_BRACKET
  | BYTE
  | WORD
  | PTR
  | OFFSET
  | DB
  | DW
  | EQU
  | instr (m : Mnemonic)
  | reg (r : RegTok)
deriving DecidableEq, Repr

/-- A lexer token: `{type, lexeme, position}` (the position flattened to the
character offset). -/
structure Token where
  type : TokT
  lexeme : String
  position : Nat
deriving DecidableEq, Repr

/-- `lexeme.toUpperCase()` over the character list (ASCII uppercase); a
list-based equivalent of `String.toUpper` that the kernel can evaluate. -/
def upperLexeme (s : String) : String := String.mk (s.toList.map Char.toUpper)

/-- `DATA_DIRECTIVES` membership. -/
def isDataDirective : TokT → Bool
  | .DB | .DW | .EQU => true
  | _ => false

/-- The data directive named by a token type (callers check
`isDataDirective` first). -/
inductive DataDir where
  | DB
  | DW
  | EQU
deriving DecidableEq, Repr

def dataDirOf : TokT → DataDir
  | .DB => .DB
  | .DW => .DW
  | _ => .EQU

/-- `INSTRUCTIONS` membership, returning the mnemonic. -/
def isInstructionTok : TokT → Option Mnemonic
  | .instr m => some m
  | _ => none

/-- `REGISTERS` membership, returning the register. -/
def isRegisterTok : TokT → Option RegTok
  | .reg r => some r
  | _ => none

/-- The hexadecimal/decimal/binary value of one digit character. -/
def digitValue (c : Char) : Nat :=
  if c.isDigit then c.toNat - 48
  else if 'a' ≤ c ∧ c ≤ 'f' then c.toNat - 87
  else if 'A' ≤ c ∧ c ≤ 'F' then c.toNat - 55
  else 0

/-- Digit-string evaluation in base `b`.  The lexer only produces
well-formed digit strings, so `parseInt`'s partial-parse and NaN semantics
are not replicated. -/
def parseDigits (b : Nat) (cs : List Char) : Nat :=
  cs.foldl (fun acc c => acc * b + digitValue c) 0

/-- `parseNumber(t)`: an `h`/`H` suffix means base 16, `b`/`B` base 2,
otherwise base 10. -/
def parseNumberTok (t : Token) : Nat :=
  let cs := t.lexeme.toList
  match cs.getLast? with
  | some c =>
    if c = 'h' ∨ c = 'H' then parseDigits 16 cs.dropLast
    else if c = 'b' ∨ c = 'B' then parseDigits 2 cs.dropLast
    else parseDigits 10 cs
  | none => 0

/-- `parseString(t)`: the lexeme without its surrounding quotes. -/
def parseStringTok (t : Token) : String :=
  String.mk (t.lexeme.toList.drop 1).dropLast

/-- `calculatePositionRange(...tokens)`: `[leftmost.position,
rightmost.position + rightmost.lexeme.length]`, with the source's fold
(note the `else if`, which keeps the first extremum on ties). -/
def calcPositionRange (t : Token) (ts : List Token) : Nat × Nat :=
  let r := (t :: ts).foldl
    (fun (lr : Token × Token) (tk : Token) =>
      if tk.position < lr.1.position then (tk, lr.2)
      else if tk.position > lr.2.position then (lr.1, tk)
      else lr)
    (t, t)
  (r.1.position, r.2.position + r.2.lexeme.length)

/-- `+`/`-` in a unary number expression. -/
inductive Sign where
  | plus
  | minus
deriving DecidableEq, Repr

/-- `+`/`-`/`*` in a binary number expression. -/
inductive NBinOp where
  | plus
  | minus
  | times
deriving DecidableEq, Repr

/-- Number expressions (`NumberExpression` of the grammar). -/
inductive NExpr where
  | numberLiteral (value : Nat) (position : Nat × Nat)
  | labelRef (value : String) (offset : Bool) (position : Nat × Nat)
  | unaryOp (operator : Sign) (right : NExpr) (position : Nat × Nat)
  | binaryOp (left right : NExpr) (operator : NBinOp) (position : Nat × Nat)
deriving DecidableEq, Repr

/-- The position of a number expression. -/
def positionOf : NExpr → Nat × Nat
  | .numberLiteral _ p => p
  | .labelRef _ _ p => p
  | .unaryOp _ _ p => p
  | .binaryOp _ _ _ p => p

/-- `{...expression, position}` in `primaryNE`'s parenthesis case. -/
def withPosition : NExpr → Nat × Nat → NExpr
  | .numberLiteral v _, p => .numberLiteral v p
  | .labelRef v o _, p => .labelRef v o p
  | .unaryOp op r _, p => .unaryOp op r p
  | .binaryOp l r op _, p => .binaryOp l r op p

/-- Data directive values (`DataDirectiveValue`). -/
inductive DDValue where
  | stringValue (value : String) (position : Nat × Nat)
  | unassigned (position : Nat × Nat)
  | expr (e : NExpr)
deriving DecidableEq, Repr

/-- The size annotation on a memory operand. -/
inductive MMode where
  | auto
  | byte
  | word
deriving DecidableEq, Repr

/-- Instruction operands as the parser produces them (`Operand`). -/
inductive POperand where
  | register (value : RegTok) (position : Nat × Nat)
  | memoryDirect (label : String) (position : Nat × Nat)
  | memoryIndirectBX (mode : MMode) (position : Nat × Nat)
  | memoryIndirectExpr (mode : MMode) (value : NExpr) (position : Nat × Nat)
  | immediate (value : NExpr) (position : Nat × Nat)
deriving DecidableEq, Repr

/-- Parsed statements (`Statement` of the grammar). -/
inductive PStatement where
  | originChange (newAddress : Nat) (position : Nat × Nat)
  | endStatement (position : Nat × Nat)
  | data (directive : DataDir) (label : Option String)
      (values : List DDValue) (position : Nat × Nat)
  | instruction (instr : Mnemonic) (label : Option String)
      (operands : List POperand) (position : Nat × Nat)
deriving DecidableEq, Repr

/-- `"label" in s` together with `s.label`: data directives and
instructions carry a label property. -/
def statementLabel : PStatement → Option (Option String)
  | .data _ l _ _ => some l
  | .instruction _ l _ _ => some l
  | _ => none

/-- Parse errors (structured counterparts of the `CompilerError` message
strings the parser throws). -/
inductive PErr where
  | expectedToken (expected : TokT) (got : Token)
  | endMustBeLast (tok : Token)
  | duplicatedLabel (l : String) (range : Nat × Nat)
  | expectedEOL (got : Token)
  | programMustEndWithEnd (got : Token)
  | expectedInstruction (got : Token)
  | expectedArgument (got : Token)
  | outOfFuel
deriving DecidableEq, Repr

/-- The token used when peeking past the end of the stream (the lexer always
terminates the stream with an EOF token, so this is never reached on real
input). -/
def eofToken : Token := ⟨.EOF, "", 0⟩

/-- `this.peek()`. -/
def peekT : List Token → Token
  | [] => eofToken
  | t :: _ => t

/-- `this.peekNext()`. -/
def peekNextT : List Token → Token
  | _ :: t :: _ => t
  | _ => eofToken

/-- `this.check(type)`. -/
def checkT (ts : List Token) (ty : TokT) : Bool :=
  (peekT ts).type == ty

/-- `this.advance()`: the consumed token and the remaining stream. -/
def advanceT : List Token → Token × List Token
  | [] => (eofToken, [])
  | t :: ts => (t, ts)

/-- `this.consume(type, onError)`. -/
def consumeT (ts : List Token) (ty : TokT) : Except PErr (Token × List Token) :=
  if checkT ts ty then .ok (advanceT ts) else .error (.expectedToken ty (peekT ts))

/-- `this.expectEOL()`. -/
def expectEOL (ts : List Token) : Except PErr (List Token) :=
  if checkT ts .EOF then .error (.programMustEndWithEnd (peekT ts))
  else if !checkT ts .EOL then .error (.expectedEOL (peekT ts))
  else .ok (advanceT ts).2

/-- The `while (this.check("EOL")) this.advance();` loop of `label()`. -/
def skipEOLs : List Token → List Token
  | [] => []
  | t :: ts => if t.type == .EOL then skipEOLs ts else t :: ts

/-- `this.label()`: recognize `IDENTIFIER COLON`, uppercase the label, check
it against the labels already collected (`duplicated-label`), and skip any
end-of-line tokens that follow the colon. -/
def parseLabel (stmts : List PStatement) (ts : List Token) :
    Except PErr (Option String × List Token) :=
  if checkT ts .IDENTIFIER && (peekNextT ts).type == .COLON then
    let (labelToken, ts1) := advanceT ts
    let label := upperLexeme labelToken.lexeme
    let (colonToken, ts2) := advanceT ts1
    if stmts.any (fun st => statementLabel st == some (some label)) then
      .error (.duplicatedLabel label (calcPositionRange labelToken [colonToken]))
    else
      .ok (some label, skipEOLs ts2)
  else
    .ok (none, ts)

/-- The phases of the recursive-descent number-expression parser, each named
after the source method it embeds (`termNE`, `factorNE`, `unaryNE`,
`primaryNE`); the two loop modes carry the expression accumulated by the
corresponding `while` loop. -/
inductive NEMode where
  | termM
  | termLoopM (left : NExpr)
  | factorM
  | factorLoopM (left : NExpr)
  | unaryM
  | primaryM
deriving Repr

/-- The number-expression parser.  One function over an explicit phase tag so
that the mutual recursion of the source methods becomes structural recursion
on a fuel counter (each source call site spends one unit of fuel; fuel is
sized generously by the wrappers below, and running out is the error
`outOfFuel`, unreachable on real input). -/
def parseNE (fuel : Nat) (mode : NEMode) (ts : List Token) :
    Except PErr (NExpr × List Token) :=
  match fuel with
  | 0 => .error .outOfFuel
  | fuel + 1 =>
    match mode with
    | .termM =>
      match parseNE fuel .factorM ts with
      | .error e => .error e
      | .ok (e, ts1) => parseNE fuel (.termLoopM e) ts1
    | .termLoopM expression =>
      if checkT ts .PLUS || checkT ts .MINUS then
        let (operatorToken, ts1) := advanceT ts
        match parseNE fuel .factorM ts1 with
        | .error e => .error e
        | .ok (right, ts2) =>
          parseNE fuel (.termLoopM (.binaryOp expression right
            (if operatorToken.type == .PLUS then .plus else .minus)
            ((positionOf expression).1, (positionOf right).2))) ts2
      else .ok (expression, ts)
    | .factorM =>
      match parseNE fuel .unaryM ts with
      | .error e => .error e
      | .ok (e, ts1) => parseNE fuel (.factorLoopM e) ts1
    | .factorLoopM expression =>
      if checkT ts .ASTERISK then
        let (_, ts1) := advanceT ts
        match parseNE fuel .unaryM ts1 with
        | .error e => .error e
        | .ok (right, ts2) =>
          parseNE fuel (.factorLoopM (.binaryOp expression right .times
            ((positionOf expression).1, (positionOf right).2))) ts2
      else .ok (expression, ts)
    | .unaryM =>
      if checkT ts .PLUS || checkT ts .MINUS then
        let (operatorToken, ts1) := advanceT ts
        match parseNE fuel .unaryM ts1 with
        | .error e => .error e
        | .ok (right, ts2) =>
          .ok (.unaryOp (if operatorToken.type == .PLUS then .plus else .minus)
            right (operatorToken.position, (positionOf right).2), ts2)
      else parseNE fuel .primaryM ts
    | .primaryM =>
      if checkT ts .NUMBER then
        let (numberToken, ts1) := advanceT ts
        .ok (.numberLiteral (parseNumberTok numberToken)
          (calcPositionRange numberToken []), ts1)
      else if checkT ts .OFFSET then
        let (offsetToken, ts1) := advanceT ts
        match consumeT ts1 .IDENTIFIER with
        | .error e => .error e
        | .ok (identifierToken, ts2) =>
          .ok (.labelRef (upperLexeme identifierToken.lexeme) true
            (calcPositionRange offsetToken [identifierToken]), ts2)
      else if checkT ts .IDENTIFIER then
        let (identifierToken, ts1) := advanceT ts
        .ok (.labelRef (upperLexeme identifierToken.lexeme) false
          (calcPositionRange identifierToken []), ts1)
      else if checkT ts .LEFT_PAREN then
        let (lparen, ts1) := advanceT ts
        match parseNE fuel .termM ts1 with
        | .error e => .error e
        | .ok (e, ts2) =>
          match consumeT ts2 .RIGHT_PAREN with
          | .error er => .error er
          | .ok (rparen, ts3) =>
            .ok (withPosition e (calcPositionRange lparen [rparen]), ts3)
      else .error (.expectedArgument (peekT ts))

/-- Fuel that amply covers the call tree of `parseNE` on the given stream
(each consumed token costs at most four phase hops plus a constant). -/
def neFuel (ts : List Token) : Nat := 8 * ts.length + 16

/-- `this.numberExpression()`. -/
def numberExpression (ts : List Token) : Except PErr (NExpr × List Token) :=
  parseNE (neFuel ts) .termM ts

/-- `this.dataDirectiveValue()`. -/
def dataDirectiveValue (ts : List Token) : Except PErr (DDValue × List Token) :=
  if checkT ts .STRING then
    let (stringToken, ts1) := advanceT ts
    .ok (.stringValue (parseStringTok stringToken)
      (calcPositionRange stringToken []), ts1)
  else if checkT ts .QUESTION_MARK then
    let (questionMarkToken, ts1) := advanceT ts
    .ok (.unassigned (calcPositionRange questionMarkToken []), ts1)
  else
    match numberExpression ts with
    | .error e => .error e
    | .ok (e, ts1) => .ok (.expr e, ts1)

/-- The bracketed part of `instructionOperand` once `[` has been consumed
(after `BYTE PTR`/`WORD PTR` when present): either `BX ]` or `expr ]`. -/
def bracketOperand (mode : MMode) (start : Token) (ts : List Token) :
    Except PErr (POperand × List Token) :=
  if checkT ts (.reg .BX) then
    let (_, ts1) := advanceT ts
    match consumeT ts1 .RIGHT_BRACKET with
    | .error e => .error e
    | .ok (rbracket, ts2) =>
      .ok (.memoryIndirectBX mode (calcPositionRange start [rbracket]), ts2)
  else
    match numberExpression ts with
    | .error e => .error e
    | .ok (calc_, ts1) =>
      match consumeT ts1 .RIGHT_BRACKET with
      | .error e => .error e
      | .ok (rbracket, ts2) =>
        .ok (.memoryIndirectExpr mode calc_
          (calcPositionRange start [rbracket]), ts2)

/-- `this.instructionOperand()`. -/
def instructionOperand (ts : List Token) :
    Except PErr (POperand × List Token) :=
  match isRegisterTok (peekT ts).type with
  | some r =>
    let (registerToken, ts1) := advanceT ts
    .ok (.register r (calcPositionRange registerToken []), ts1)
  | none =>
    if checkT ts .IDENTIFIER then
      let (identifierToken, ts1) := advanceT ts
      .ok (.memoryDirect (upperLexeme identifierToken.lexeme)
        (calcPositionRange identifierToken []), ts1)
    else if checkT ts .BYTE || checkT ts .WORD || checkT ts .LEFT_BRACKET then
      if checkT ts .LEFT_BRACKET then
        let (start, ts1) := advanceT ts
        bracketOperand .auto start ts1
      else
        let mode : MMode := if checkT ts .BYTE then .byte else .word
        let (start, ts1) := advanceT ts
        match consumeT ts1 .PTR with
        | .error e => .error e
        | .ok (_, ts2) =>
          match consumeT ts2 .LEFT_BRACKET with
          | .error e => .error e
          | .ok (_, ts3) => bracketOperand mode start ts3
    else
      match numberExpression ts with
      | .error e => .error e
      | .ok (calc_, ts1) => .ok (.immediate calc_ (positionOf calc_), ts1)

/-- The `while (this.check("COMMA"))` loop collecting data directive
values.  Fuel is the remaining stream length plus one at entry. -/
def dataValuesLoop (fuel : Nat) (acc : List DDValue) (ts : List Token) :
    Except PErr (List DDValue × List Token) :=
  match fuel with
  | 0 => .error .outOfFuel
  | fuel + 1 =>
    if checkT ts .COMMA then
      let (_, ts1) := advanceT ts
      match dataDirectiveValue ts1 with
      | .error e => .error e
      | .ok (v, ts2) => dataValuesLoop fuel (acc ++ [v]) ts2
    else .ok (acc, ts)

/-- The `while (this.check("COMMA"))` loop collecting instruction
operands. -/
def operandsLoop (fuel : Nat) (acc : List POperand) (ts : List Token) :
    Except PErr (List POperand × List Token) :=
  match fuel with
  | 0 => .error .outOfFuel
  | fuel + 1 =>
    if checkT ts .COMMA then
      let (_, ts1) := advanceT ts
      match instructionOperand ts1 with
      | .error e => .error e
      | .ok (op, ts2) => operandsLoop fuel (acc ++ [op]) ts2
    else .ok (acc, ts)

/-- The `while (!this.isAtEnd())` loop of `parseTokens()`.  Each iteration
handles one of: a blank line, an `ORG` line, an `END` line, or an optionally
labelled data directive or instruction.  Fuel bounds the number of loop
iterations (each consumes at least one token, so `length + 1` suffices). -/
def parseLoop (fuel : Nat) (ts : List Token) (stmts : List PStatement) :
    Except PErr (List PStatement) :=
  match fuel with
  | 0 => .error .outOfFuel
  | fuel + 1 =>
    if checkT ts .EOF then .ok stmts
    else if checkT ts .EOL then parseLoop fuel (advanceT ts).2 stmts
    else if checkT ts .ORG then
      let (token, ts1) := advanceT ts
      match consumeT ts1 .NUMBER with
      | .error e => .error e
      | .ok (addressToken, ts2) =>
        let address := parseNumberTok addressToken
        let stmts1 := stmts
          ++ [.originChange address (calcPositionRange token [addressToken])]
        match expectEOL ts2 with
        | .error e => .error e
        | .ok ts3 => parseLoop fuel ts3 stmts1
    else if checkT ts .END then
      let (token, ts1) := advanceT ts
      let stmts1 := stmts ++ [.endStatement (calcPositionRange token [])]
      let ts2 := skipEOLs ts1
      if !checkT ts2 .EOF then .error (.endMustBeLast token)
      else parseLoop fuel ts2 stmts1
    else
      match parseLabel stmts ts with
      | .error e => .error e
      | .ok (label, ts1) =>
        let (token, ts2) := advanceT ts1
        if isDataDirective token.type then
          match dataDirectiveValue ts2 with
          | .error e => .error e
          | .ok (v, ts3) =>
            match dataValuesLoop (ts3.length + 1) [v] ts3 with
            | .error e => .error e
            | .ok (values, ts4) =>
              match expectEOL ts4 with
              | .error e => .error e
              | .ok ts5 =>
                parseLoop fuel ts5 (stmts ++ [.data (dataDirOf token.type)
                  label values (calcPositionRange token [])])
        else
          match isInstructionTok token.type with
          | some m =>
            if checkT ts2 .EOL then
              parseLoop fuel ts2 (stmts
                ++ [.instruction m label [] (calcPositionRange token [])])
            else
              match instructionOperand ts2 with
              | .error e => .error e
              | .ok (op, ts3) =>
                match operandsLoop (ts3.length + 1) [op] ts3 with
                | .error e => .error e
                | .ok (operands, ts4) =>
                  match expectEOL ts4 with
                  | .error e => .error e
                  | .ok ts5 =>
                    parseLoop fuel ts5 (stmts ++ [.instruction m label
                      operands (calcPositionRange token [])])
          | none => .error (.expectedInstruction token)

/-- `parseTokens()`: run the loop with enough fuel for the whole stream. -/
def parseTokens (ts : List Token) : Except PErr (List PStatement) :=
  parseLoop (ts.length + 1) ts []

/-- Tokens of the two-line program `X:⏎HLT⏎END` (label on a line of its
own). -/
def labelOwnLineTokens : List Token :=
  [⟨.IDENTIFIER, "X", 0⟩, ⟨.COLON, ":", 1⟩, ⟨.EOL, "\n", 2⟩,
   ⟨.instr .HLT, "hlt", 3⟩, ⟨.EOL, "\n", 6⟩, ⟨.END, "end", 7⟩,
   ⟨.EOF, "", 10⟩]

/-- Tokens of the same program with the label on the instruction's line. -/
def labelSameLineTokens : List Token :=
  [⟨.IDENTIFIER, "X", 0⟩, ⟨.COLON, ":", 1⟩,
   ⟨.instr .HLT, "hlt", 3⟩, ⟨.EOL, "\n", 6⟩, ⟨.END, "end", 7⟩,
   ⟨.EOF, "", 10⟩]

end VonSim.Legacy

/-! ## Theorems -/

namespace VonSim.Common

theorem toInt32_eq_self {v : Int} (h₁ : -(2 ^ 31) ≤ v) (h₂ : v < 2 ^ 31) :
    toInt32 v = v := by
  unfold toInt32
  omega

/-- C9: for n ∈ {8, 16}, `fromUnsigned`/`unsigned` is the identity on
`[0, 2^n − 1]`, `fromSigned`/`signed` is the identity on
`[−2^(n−1), 2^(n−1) − 1]`, and each constructor fails exactly when its input
lies outside the corresponding range. -/
theorem pow_facts {n : Nat} (hn1 : 1 ≤ n) (hn16 : n ≤ 16) :
    (2:Int) ^ n = 2 ^ (n - 1) * 2 ∧ (1:Int) ≤ 2 ^ (n - 1)
    ∧ (2:Int) ^ (n - 1) ≤ 32768 := by
  have e : n - 1 + 1 = n := by omega
  refine ⟨?_, ?_, ?_⟩
  · conv_lhs => rw [← e]
    rw [pow_succ]
  · have := pow_pos (show (0:Int) < 2 by norm_num) (n - 1)
    omega
  · calc (2:Int) ^ (n - 1) ≤ 2 ^ 15 :=
          pow_le_pow_right (by norm_num) (by omega)
      _ = 32768 := by norm_num

theorem fitsUnsigned_true {v : Int} {n : Nat} (hn1 : 1 ≤ n) (hn16 : n ≤ 16)
    (h1 : 0 ≤ v) (h2 : v ≤ 2 ^ n - 1) : fitsUnsigned v n = true := by
  obtain ⟨p1, p2, p3⟩ := pow_facts hn1 hn16
  have h53 : (2:Int) ^ 53 = 9007199254740992 := by norm_num
  simp only [fitsUnsigned, isSafeInteger, maxValue, Bool.and_eq_true,
    decide_eq_true_eq]
  omega

theorem fitsSigned_true {s : Int} {n : Nat} (hn1 : 1 ≤ n) (hn16 : n ≤ 16)
    (h1 : -(2 ^ (n - 1)) ≤ s) (h2 : s ≤ 2 ^ (n - 1) - 1) :
    fitsSigned s n = true := by
  obtain ⟨p1, p2, p3⟩ := pow_facts hn1 hn16
  have h53 : (2:Int) ^ 53 = 9007199254740992 := by norm_num
  simp only [fitsSigned, isSafeInteger, minSignedValue, maxSignedValue,
    Bool.and_eq_true, decide_eq_true_eq]
  omega

theorem fromUnsigned_in_range {v : Int} {n : Nat} (hn1 : 1 ≤ n) (hn16 : n ≤ 16)
    (h1 : 0 ≤ v) (h2 : v ≤ 2 ^ n - 1) : fromUnsigned v n = some ⟨v, n⟩ := by
  obtain ⟨p1, p2, p3⟩ := pow_facts hn1 hn16
  have h31 : (2:Int) ^ 31 = 2147483648 := by norm_num
  rw [fromUnsigned, if_pos (fitsUnsigned_true hn1 hn16 h1 h2), mkByte,
    toInt32_eq_self (by omega) (by omega)]

theorem fromSigned_in_range {s : Int} {n : Nat} (hn1 : 1 ≤ n) (hn16 : n ≤ 16)
    (h1 : -(2 ^ (n - 1)) ≤ s) (h2 : s ≤ 2 ^ (n - 1) - 1) :
    fromSigned s n = some ⟨if s < 0 then s + 2 ^ n else s, n⟩ := by
  obtain ⟨p1, p2, p3⟩ := pow_facts hn1 hn16
  have h31 : (2:Int) ^ 31 = 2147483648 := by norm_num
  rw [fromSigned, if_pos (fitsSigned_true hn1 hn16 h1 h2)]
  by_cases hneg : s < 0
  · rw [if_pos hneg, if_pos hneg, mkByte, maxValue,
      toInt32_eq_self (by omega) (by omega)]
    congr 2
    omega
  · rw [if_neg hneg, if_neg hneg, mkByte,
      toInt32_eq_self (by omega) (by omega)]

theorem signed_in_range {s : Int} {n : Nat} (hn1 : 1 ≤ n) (hn16 : n ≤ 16)
    (h1 : -(2 ^ (n - 1)) ≤ s) (h2 : s ≤ 2 ^ (n - 1) - 1) :
    signed ⟨if s < 0 then s + 2 ^ n else s, n⟩ = s := by
  obtain ⟨p1, p2, p3⟩ := pow_facts hn1 hn16
  by_cases hneg : s < 0
  · rw [if_pos hneg, signed]
    simp only [maxSignedValue, maxValue]
    rw [if_neg (by omega)]
    omega
  · rw [if_neg hneg, signed]
    simp only [maxSignedValue, maxValue]
    rw [if_pos (by omega)]

/-- C9: for n ∈ {8, 16}, `fromUnsigned`/`unsigned` is the identity on
`[0, 2^n − 1]`, `fromSigned`/`signed` is the identity on
`[−2^(n−1), 2^(n−1) − 1]`, and each constructor fails exactly when its input
lies outside the corresponding range. -/
theorem c9_byte_roundtrip (n : Nat) (hn : n = 8 ∨ n = 16) (v s : Int) :
    (0 ≤ v → v ≤ 2 ^ n - 1 → (fromUnsigned v n).map unsigned = some v)
    ∧ (-(2 ^ (n - 1)) ≤ s → s ≤ 2 ^ (n - 1) - 1 →
        (fromSigned s n).map signed = some s)
    ∧ ((fromUnsigned v n = none) ↔ ¬(0 ≤ v ∧ v ≤ 2 ^ n - 1))
    ∧ ((fromSigned s n = none) ↔
        ¬(-(2 ^ (n - 1)) ≤ s ∧ s ≤ 2 ^ (n - 1) - 1)) := by
  have hn1 : 1 ≤ n := by rcases hn with h | h <;> omega
  have hn16 : n ≤ 16 := by rcases hn with h | h <;> omega
  obtain ⟨p1, p2, p3⟩ := pow_facts hn1 hn16
  refine ⟨?_, ?_, ?_, ?_⟩
  · intro h1 h2
    rw [fromUnsigned_in_range hn1 hn16 h1 h2, Option.map_some', unsigned]
  · intro h1 h2
    rw [fromSigned_in_range hn1 hn16 h1 h2, Option.map_some',
      signed_in_range hn1 hn16 h1 h2]
  · constructor
    · intro hnone h12
      rw [fromUnsigned, if_pos (fitsUnsigned_true hn1 hn16 h12.1 h12.2)] at hnone
      exact Option.noConfusion hnone
    · intro hout
      rw [fromUnsigned]
      rw [if_neg]
      intro hfit
      simp only [fitsUnsigned, isSafeInteger, maxValue, Bool.and_eq_true,
        decide_eq_true_eq] at hfit
      exact hout ⟨hfit.1.2, hfit.2⟩
  · constructor
    · intro hnone h12
      rw [fromSigned, if_pos (fitsSigned_true hn1 hn16 h12.1 h12.2)] at hnone
      split at hnone <;> exact Option.noConfusion hnone
    · intro hout
      rw [fromSigned]
      rw [if_neg]
      intro hfit
      simp only [fitsSigned, isSafeInteger, minSignedValue, maxSignedValue,
        Bool.and_eq_true, decide_eq_true_eq] at hfit
      exact hout ⟨hfit.1.2, by have := hfit.2; omega⟩

/-- Witness for C9 at n = 8, v = 200, s = −100. -/
theorem c9_byte_roundtrip_witness :
    (fromUnsigned 200 8).map unsigned = some 200
    ∧ (fromSigned (-100) 8).map signed = some (-100) :=
  ⟨(c9_byte_roundtrip 8 (Or.inl rfl) 200 (-100)).1 (by decide) (by decide),
   (c9_byte_roundtrip 8 (Or.inl rfl) 200 (-100)).2.1 (by decide) (by decide)⟩

end VonSim.Common

namespace VonSim.Legacy

/-- C1 (evaluation at the failing input): executing
`MOV AL, 0FFh; ADD AL, 1; HLT` leaves AL = 00h and CF = 1, SF = 0 as the
claim states, but ZF = 0 and OF = 1, contradicting the claimed ZF = 1 and
OF = 0: `unsignedToSigned` is the identity on every in-range operand
(its guard compares against the unsigned maximum), so zero and overflow are
computed on the unwrapped sum 256. -/
theorem c1_carry_program_eval :
    runCarryProgram =
      (0, { carry := true, overflow := true, sign := false, zero := false })
    ∧ ¬(runCarryProgram =
      (0, { carry := true, overflow := false, sign := false, zero := true })) := by
  constructor
  · rfl
  · intro h
    have h2 := h.symm.trans (show runCarryProgram =
      (0, { carry := true, overflow := true, sign := false, zero := false })
      from rfl)
    simp at h2

theorem findLineAux_some {IMR IRR n : Nat} (hn : n < 8)
    (hm : bit IMR n = false) (hr : bit IRR n = true) :
    ∀ k i, 8 - i ≤ k → i ≤ n →
      (∀ m, i ≤ m → m < n → bit IMR m = true ∨ bit IRR m = false) →
      findLineAux IMR IRR k i = some n := by
  intro k
  induction k with
  | zero => intro i hk hi _; omega
  | succ k ih =>
    intro i hk hi hleast
    rw [findLineAux, if_pos (by omega : i < 8)]
    by_cases hin : i = n
    · subst hin
      rw [hm, hr]
      simp
    · have hlt : i < n := by omega
      rcases hleast i le_rfl hlt with hmask | hreq
      · rw [hmask]
        simp only [if_true]
        exact ih (i + 1) (by omega) (by omega)
          fun m h1 h2 => hleast m (by omega) h2
      · rw [hreq]
        by_cases hmask : bit IMR i = true
        · rw [hmask]
          simp only [if_true]
          exact ih (i + 1) (by omega) (by omega)
            fun m h1 h2 => hleast m (by omega) h2
        · rw [Bool.not_eq_true] at hmask
          rw [hmask]
          simp only [Bool.false_eq_true, if_false, Bool.not_false, if_true]
          exact ih (i + 1) (by omega) (by omega)
            fun m h1 h2 => hleast m (by omega) h2

theorem findLineAux_none {IMR IRR : Nat} :
    ∀ k i, (∀ m, i ≤ m → m < 8 → bit IMR m = true ∨ bit IRR m = false) →
      findLineAux IMR IRR k i = none := by
  intro k
  induction k with
  | zero => intro i _; rfl
  | succ k ih =>
    intro i hnone
    rw [findLineAux]
    by_cases hi : i < 8
    · rw [if_pos hi]
      rcases hnone i le_rfl hi with hmask | hreq
      · rw [hmask]
        simp only [if_true]
        exact ih (i + 1) fun m h1 h2 => hnone m (by omega) h2
      · rw [hreq]
        by_cases hmask : bit IMR i = true
        · rw [hmask]
          simp only [if_true]
          exact ih (i + 1) fun m h1 h2 => hnone m (by omega) h2
        · rw [Bool.not_eq_true] at hmask
          rw [hmask]
          simp only [Bool.false_eq_true, if_false, Bool.not_false, if_true]
          exact ih (i + 1) fun m h1 h2 => hnone m (by omega) h2
    · rw [if_neg hi]

theorem findLine_some {IMR IRR n : Nat} (hn : n < 8)
    (hm : bit IMR n = false) (hr : bit IRR n = true)
    (hleast : ∀ m, m < n → bit IMR m = true ∨ bit IRR m = false) :
    findLine IMR IRR = some n :=
  findLineAux_some hn hm hr 8 0 (by omega) (by omega)
    fun m _ h2 => hleast m h2

theorem findLine_none {IMR IRR : Nat}
    (h : ∀ m, m < 8 → bit IMR m = true ∨ bit IRR m = false) :
    findLine IMR IRR = none :=
  findLineAux_none 8 0 fun m _ h2 => h m h2

theorem pushToStack_eq (s : CState) (v : Nat) (h1 : 2 ≤ s.SP)
    (h2 : s.SP - 2 ≤ MAX_MEMORY_ADDRESS - 1) :
    pushToStack s v = some ({ s with
      SP := s.SP - 2
      memory := (fun a =>
        if a = s.SP - 2 then (splitLowHigh v).1
        else if a = s.SP - 2 + 1 then (splitLowHigh v).2
        else s.memory a) }) := by
  unfold pushToStack setMemoryWord
  rw [if_neg (by omega), if_neg (by omega)]
  rfl

theorem pushToStack_parts {s t : CState} {v : Nat}
    (h : pushToStack s v = some t) :
    t.pic = s.pic ∧ t.interruptsEnabled = s.interruptsEnabled
    ∧ t.flags = s.flags ∧ t.IP = s.IP := by
  unfold pushToStack setMemoryWord at h
  split at h
  · exact absurd h (by simp)
  · split at h
    · exact absurd h (by simp)
    · simp only [Option.map_some', Option.some.injEq] at h
      subst h
      exact ⟨rfl, rfl, rfl, rfl⟩

theorem dispatchInterrupt_pic (s : CState) (id : Nat) :
    ((dispatchInterrupt s id).1).pic = s.pic := by
  unfold dispatchInterrupt
  split
  · rfl
  · split
    · rfl
    · next s2 h2 =>
      split
      · exact (pushToStack_parts h2).1
      · next s3 h3 =>
        have p2 := (pushToStack_parts h2).1
        have p3 := (pushToStack_parts h3).1
        simp only []
        rw [p3, p2]

theorem update_ISR_cases (s : CState) :
    ((update s).1).pic.ISR = 0 ∨ ((update s).1).pic.ISR = s.pic.ISR
    ∨ ∃ i, ((update s).1).pic.ISR = 1 <<< i := by
  unfold update
  split
  · split
    · left; rfl
    · right; left; rfl
  · split
    · right; left; rfl
    · split
      · right; left; rfl
      · next i _ =>
        dsimp only
        split
        · right; left; rfl
        · right; right
          exact ⟨i, by rw [dispatchInterrupt_pic]⟩

theorem atMostOneBit_zero : atMostOneBit 0 := by
  intro i j hi _
  rw [Nat.zero_testBit] at hi
  exact absurd hi (by simp)

theorem atMostOneBit_shift (i : Nat) : atMostOneBit (1 <<< i) := by
  intro a b ha hb
  rw [Nat.shiftLeft_eq, one_mul, Nat.testBit_two_pow] at ha hb
  have ha2 := of_decide_eq_true ha
  have hb2 := of_decide_eq_true hb
  omega

theorem applyPICOp_ISR {s : CState} (op : PICOp)
    (h : atMostOneBit s.pic.ISR) :
    atMostOneBit ((applyPICOp s op)).pic.ISR := by
  cases op with
  | request n => exact h
  | cancel n => exact h
  | eoiWrite => exact h
  | update =>
    rcases update_ISR_cases s with h0 | hs | ⟨i, hi⟩
    · show atMostOneBit ((update s).1).pic.ISR
      rw [h0]
      exact atMostOneBit_zero
    · show atMostOneBit ((update s).1).pic.ISR
      rw [hs]
      exact h
    · show atMostOneBit ((update s).1).pic.ISR
      rw [hi]
      exact atMostOneBit_shift i

theorem dispatchInterrupt_ok (s : CState) (id : Nat)
    (hvec : id * INTERRUPT_VECTOR_ADDRESS_SIZE ≤ MAX_MEMORY_ADDRESS - 1)
    (hsp1 : 4 ≤ s.SP) (hsp2 : s.SP ≤ MAX_MEMORY_ADDRESS + 1) :
    (dispatchInterrupt s id).2 = none
    ∧ (dispatchInterrupt s id).1.interruptsEnabled = s.interruptsEnabled
    ∧ (dispatchInterrupt s id).1.flags = s.flags
    ∧ (dispatchInterrupt s id).1.pic = s.pic
    ∧ (dispatchInterrupt s id).1.SP = s.SP - 4
    ∧ (dispatchInterrupt s id).1.IP =
        joinLowHigh (s.memory (id * INTERRUPT_VECTOR_ADDRESS_SIZE))
          (s.memory (id * INTERRUPT_VECTOR_ADDRESS_SIZE + 1))
    ∧ (dispatchInterrupt s id).1.memory (s.SP - 2)
        = (splitLowHigh (encodeFlags s)).1
    ∧ (dispatchInterrupt s id).1.memory (s.SP - 1)
        = (splitLowHigh (encodeFlags s)).2
    ∧ (dispatchInterrupt s id).1.memory (s.SP - 4) = (splitLowHigh s.IP).1
    ∧ (dispatchInterrupt s id).1.memory (s.SP - 3) = (splitLowHigh s.IP).2 := by
  have hM : MAX_MEMORY_ADDRESS = 0x3FFF := rfl
  have h1 : getMemoryWord s (id * INTERRUPT_VECTOR_ADDRESS_SIZE)
      = some (joinLowHigh (s.memory (id * INTERRUPT_VECTOR_ADDRESS_SIZE))
          (s.memory (id * INTERRUPT_VECTOR_ADDRESS_SIZE + 1))) := by
    unfold getMemoryWord
    rw [if_neg (by omega)]
  have h2 := pushToStack_eq s (encodeFlags s) (by omega) (by omega)
  have h3 := pushToStack_eq ({ s with
      SP := s.SP - 2
      memory := (fun a =>
        if a = s.SP - 2 then (splitLowHigh (encodeFlags s)).1
        else if a = s.SP - 2 + 1 then (splitLowHigh (encodeFlags s)).2
        else s.memory a) }) s.IP
    (by show 2 ≤ s.SP - 2; omega) (by show s.SP - 2 - 2 ≤ _; omega)
  rw [dispatchInterrupt, h1, h2]
  dsimp only
  rw [h3]
  dsimp only
  refine ⟨rfl, rfl, rfl, rfl, by show s.SP - 2 - 2 = s.SP - 4; omega, rfl,
    ?_, ?_, ?_, ?_⟩
  · show (if s.SP - 2 = s.SP - 2 - 2 then _
      else if s.SP - 2 = s.SP - 2 - 2 + 1 then _
      else if s.SP - 2 = s.SP - 2 then _
      else if s.SP - 2 = s.SP - 2 + 1 then _ else s.memory _) = _
    rw [if_neg (by omega), if_neg (by omega), if_pos rfl]
  · show (if s.SP - 1 = s.SP - 2 - 2 then _
      else if s.SP - 1 = s.SP - 2 - 2 + 1 then _
      else if s.SP - 1 = s.SP - 2 then _
      else if s.SP - 1 = s.SP - 2 + 1 then _ else s.memory _) = _
    rw [if_neg (by omega), if_neg (by omega), if_neg (by omega),
      if_pos (by omega)]
  · show (if s.SP - 4 = s.SP - 2 - 2 then _
      else if s.SP - 4 = s.SP - 2 - 2 + 1 then _
      else if s.SP - 4 = s.SP - 2 then _
      else if s.SP - 4 = s.SP - 2 + 1 then _ else s.memory _) = _
    rw [if_pos (by omega)]
  · show (if s.SP - 3 = s.SP - 2 - 2 then _
      else if s.SP - 3 = s.SP - 2 - 2 + 1 then _
      else if s.SP - 3 = s.SP - 2 then _
      else if s.SP - 3 = s.SP - 2 + 1 then _ else s.memory _) = _
    rw [if_neg (by omega), if_pos (by omega)]

theorem update_accepts (s : CState) (n : Nat)
    (hISR : s.pic.ISR = 0) (hIF : s.interruptsEnabled = true)
    (hn : n < 8) (hm : bit s.pic.IMR n = false) (hr : bit s.pic.IRR n = true)
    (hleast : ∀ m, m < n → bit s.pic.IMR m = true ∨ bit s.pic.IRR m = false)
    (hid : interruptPatternMatches (s.pic.INTn n) = false) :
    update s = dispatchInterrupt ({ s with pic := { s.pic with
      EOI := 0, IRR := s.pic.IRR ^^^ (1 <<< n), ISR := 1 <<< n } })
      (s.pic.INTn n) := by
  rw [update, if_neg (by simp [hISR]), if_neg (by simp [hIF]),
    findLine_some hn hm hr hleast]
  dsimp only
  rw [if_neg (by simp [hid])]

/-- C2 (amended): when `PIC.update()` accepts a pending unmasked line `n`
whose vector ID is not reserved and the IVT read and both stack pushes stay
in range, the dispatch pushes FLAGS (at SP−2), then pushes IP (at SP−4), and
loads IP with the word stored at `ID*4` read from the pre-push memory — but
it does not clear IF: `interruptsEnabled` keeps its previous value (so IF is
still 1 immediately after the dispatch). -/
theorem c2_hardware_dispatch (s : CState) (n : Nat)
    (hISR : s.pic.ISR = 0) (hIF : s.interruptsEnabled = true)
    (hn : n < 8) (hm : bit s.pic.IMR n = false) (hr : bit s.pic.IRR n = true)
    (hleast : ∀ m, m < n → bit s.pic.IMR m = true ∨ bit s.pic.IRR m = false)
    (hid : interruptPatternMatches (s.pic.INTn n) = false)
    (hvec : s.pic.INTn n * INTERRUPT_VECTOR_ADDRESS_SIZE
      ≤ MAX_MEMORY_ADDRESS - 1)
    (hsp1 : 4 ≤ s.SP) (hsp2 : s.SP ≤ MAX_MEMORY_ADDRESS + 1) :
    (update s).2 = none
    ∧ (update s).1.interruptsEnabled = true
    ∧ (update s).1.SP = s.SP - 4
    ∧ (update s).1.IP =
        joinLowHigh (s.memory (s.pic.INTn n * INTERRUPT_VECTOR_ADDRESS_SIZE))
          (s.memory (s.pic.INTn n * INTERRUPT_VECTOR_ADDRESS_SIZE + 1))
    ∧ (update s).1.memory (s.SP - 2) = (splitLowHigh (encodeFlags s)).1
    ∧ (update s).1.memory (s.SP - 1) = (splitLowHigh (encodeFlags s)).2
    ∧ (update s).1.memory (s.SP - 4) = (splitLowHigh s.IP).1
    ∧ (update s).1.memory (s.SP - 3) = (splitLowHigh s.IP).2
    ∧ (update s).1.pic.ISR = 1 <<< n
    ∧ (update s).1.pic.IRR = s.pic.IRR ^^^ (1 <<< n)
    ∧ (update s).1.pic.EOI = 0 := by
  rw [update_accepts s n hISR hIF hn hm hr hleast hid]
  obtain ⟨d1, d2, d3, d4, d5, d6, d7, d8, d9, d10⟩ :=
    dispatchInterrupt_ok ({ s with pic := { s.pic with
      EOI := 0, IRR := s.pic.IRR ^^^ (1 <<< n), ISR := 1 <<< n } })
      (s.pic.INTn n) hvec hsp1 hsp2
  exact ⟨d1, hIF ▸ d2, d5, d6, d7, d8, d9, d10,
    by rw [d4], by rw [d4], by rw [d4]⟩

/-- Witness for C2's amended dispatch description, at the concrete state
`dispatchExample` (line 0 pending and unmasked, vector 10h, IVT word
`1234h`). -/
theorem c2_hardware_dispatch_witness :
    (update dispatchExample).2 = none
    ∧ (update dispatchExample).1.interruptsEnabled = true
    ∧ (update dispatchExample).1.SP = 0x3FFC
    ∧ (update dispatchExample).1.IP = 0x1234 := by
  obtain ⟨h1, h2, h3, h4, -⟩ :=
    c2_hardware_dispatch dispatchExample 0 (by decide) (by decide) (by decide)
      (by decide) (by decide) (fun m hm => by omega) (by decide) (by decide)
      (by decide) (by decide)
  exact ⟨h1, h2, h3, h4⟩

/-- C2 (counterexample to the claim as stated): at `dispatchExample` the
PIC accepts line 0 and the CPU dispatches (no error, IP loaded from the IVT,
FLAGS and IP pushed), yet IF is *not* cleared: `interruptsEnabled` is still
`true` afterwards, where the claim requires IF = 0. -/
theorem c2_dispatch_keeps_IF_counterexample :
    (update dispatchExample).2 = none
    ∧ (update dispatchExample).1.IP = 0x1234
    ∧ (update dispatchExample).1.pic.ISR = 1
    ∧ ¬((update dispatchExample).1.interruptsEnabled = false) := by
  decide

/-- C3 (amended): the full case analysis of `pic.update()`.  The claim's
three cases hold verbatim; the amendment adds the reserved-vector exception:
when the selected line's vector ID matches the reserved-interrupt pattern,
`update` reports `reserved-interrupt` and leaves the PIC registers (including
`IRR_n`) unchanged instead of dispatching. -/
theorem c3_update_cases (s : CState) :
    (s.pic.ISR ≠ 0 → s.pic.EOI = 0x20 →
      update s = ({ s with pic := { s.pic with EOI := 0, ISR := 0 } }, none))
    ∧ (s.pic.ISR ≠ 0 → s.pic.EOI ≠ 0x20 → update s = (s, none))
    ∧ (s.pic.ISR = 0 → s.interruptsEnabled = false → update s = (s, none))
    ∧ (s.pic.ISR = 0 → s.interruptsEnabled = true →
        (∀ m, m < 8 → bit s.pic.IMR m = true ∨ bit s.pic.IRR m = false) →
        update s = (s, none))
    ∧ (∀ n, s.pic.ISR = 0 → s.interruptsEnabled = true → n < 8 →
        bit s.pic.IMR n = false → bit s.pic.IRR n = true →
        (∀ m, m < n → bit s.pic.IMR m = true ∨ bit s.pic.IRR m = false) →
        interruptPatternMatches (s.pic.INTn n) = true →
        update s = (s, some .reservedInterrupt))
    ∧ (∀ n, s.pic.ISR = 0 → s.interruptsEnabled = true → n < 8 →
        bit s.pic.IMR n = false → bit s.pic.IRR n = true →
        (∀ m, m < n → bit s.pic.IMR m = true ∨ bit s.pic.IRR m = false) →
        interruptPatternMatches (s.pic.INTn n) = false →
        (update s).1.pic.ISR = 1 <<< n
        ∧ (update s).1.pic.IRR = s.pic.IRR ^^^ (1 <<< n)
        ∧ (update s).1.pic.EOI = 0
        ∧ (update s).1.pic.IMR = s.pic.IMR
        ∧ (∀ i, (update s).1.pic.INTn i = s.pic.INTn i)) := by
  refine ⟨?_, ?_, ?_, ?_, ?_, ?_⟩
  · intro h1 h2
    rw [update, if_pos h1, if_pos h2]
  · intro h1 h2
    rw [update, if_pos h1, if_neg h2]
  · intro h1 h2
    rw [update, if_neg (by simp [h1]), if_pos (by rw [h2]; rfl)]
  · intro h1 h2 hmask
    rw [update, if_neg (by simp [h1]), if_neg (by simp [h2]),
      findLine_none hmask]
  · intro n h1 h2 hn hm hr hleast hres
    rw [update, if_neg (by simp [h1]), if_neg (by simp [h2]),
      findLine_some hn hm hr hleast]
    dsimp only
    rw [if_pos hres]
  · intro n h1 h2 hn hm hr hleast hres
    rw [update_accepts s n h1 h2 hn hm hr hleast hres]
    rw [dispatchInterrupt_pic]
    exact ⟨rfl, rfl, rfl, rfl, fun _ => rfl⟩

/-- Witness for C3's case analysis: at `dispatchExample` the dispatch case
fires: line 0 is accepted, `IRR_0` is cleared, `ISR_0` set, EOI reset. -/
theorem c3_update_cases_witness :
    (update dispatchExample).1.pic.ISR = 1 <<< 0
    ∧ (update dispatchExample).1.pic.IRR
        = dispatchExample.pic.IRR ^^^ (1 <<< 0)
    ∧ (update dispatchExample).1.pic.EOI = 0 := by
  obtain ⟨h1, h2, h3, -⟩ :=
    (c3_update_cases dispatchExample).2.2.2.2.2 0 (by decide) (by decide)
      (by decide) (by decide) (by decide) (fun m hm => by omega) (by decide)
  exact ⟨h1, h2, h3⟩

/-- C3 (counterexample to the claim as stated): at `reservedExample` line 0
is pending and unmasked with `ISR = 0` and IF = 1, so the claim as stated
requires `update()` to clear `IRR_0`, set `ISR_0` and dispatch — but the
vector `INT0 = 0` matches the reserved pattern, so the code reports
`reserved-interrupt` and leaves IRR and ISR untouched. -/
theorem c3_reserved_counterexample :
    (update reservedExample).2 = some .reservedInterrupt
    ∧ (update reservedExample).1.pic.IRR = 1
    ∧ (update reservedExample).1.pic.ISR = 0
    ∧ ¬((update reservedExample).1.pic.ISR = 1 <<< 0
        ∧ (update reservedExample).1.pic.IRR
            = reservedExample.pic.IRR ^^^ (1 <<< 0)) := by
  decide

theorem occupyLoop_no_collision (isInstr : Bool) :
    ∀ (fuel p : Nat) (occ code : Finset Nat),
      (∀ a, p ≤ a → a < p + fuel → a ∉ occ) →
      occupyLoop isInstr (p + fuel) fuel p occ code =
        (p + fuel, occ ∪ Finset.Ico p (p + fuel),
          (if isInstr then code ∪ Finset.Ico p (p + fuel) else code),
          none) := by
  intro fuel
  induction fuel with
  | zero =>
    intro p occ code _
    show (p, occ, code, none) = _
    have h1 : occ ∪ Finset.Ico p (p + 0) = occ := by
      ext a
      simp [Finset.mem_Ico]
    have h2 : code ∪ Finset.Ico p (p + 0) = code := by
      ext a
      simp [Finset.mem_Ico]
    rw [h1, h2]
    cases isInstr <;> rfl
  | succ fuel ih =>
    intro p occ code hfree
    rw [occupyLoop, if_pos (by omega),
      if_neg (hfree p le_rfl (by omega))]
    have e : p + (fuel + 1) = (p + 1) + fuel := by omega
    rw [e, ih (p + 1) (insert p occ) (if isInstr then insert p code else code)
      (fun a h1 h2 => by
        simp only [Finset.mem_insert, not_or]
        exact ⟨by omega, hfree a (by omega) (by omega)⟩)]
    have hIco : insert p (Finset.Ico (p + 1) (p + 1 + fuel))
        = Finset.Ico p (p + 1 + fuel) := by
      ext a
      simp [Finset.mem_Ico, Finset.mem_insert]
      omega
    simp only [Prod.mk.injEq]
    refine ⟨trivial, ?_, ?_, trivial⟩
    · rw [Finset.insert_union, ← hIco, Finset.union_insert]
    · cases isInstr with
      | false => simp
      | true =>
        simp only [if_true]
        rw [Finset.insert_union, ← hIco, Finset.union_insert]

theorem occupyLoop_collision (isInstr : Bool) :
    ∀ (fuel p : Nat) (occ code : Finset Nat) (a : Nat),
      p ≤ a → a < p + fuel → a ∈ occ →
      (occupyLoop isInstr (p + fuel) fuel p occ code).2.2.2
        = some .occupiedAddress := by
  intro fuel
  induction fuel with
  | zero => intro p occ code a h1 h2 _; omega
  | succ fuel ih =>
    intro p occ code a h1 h2 h3
    rw [occupyLoop, if_pos (by omega)]
    by_cases hp : p ∈ occ
    · rw [if_pos hp]
    · rw [if_neg hp]
      have e : p + (fuel + 1) = (p + 1) + fuel := by omega
      rw [e]
      exact ih (p + 1) (insert p occ)
        (if isInstr then insert p code else code) a
        (by rcases Nat.eq_or_lt_of_le h1 with h | h
            · exact absurd (h ▸ h3) hp
            · omega)
        (by omega) (Finset.mem_insert_of_mem h3)

theorem rangesUnion_append (xs ys : List (Nat × Nat)) :
    rangesUnion (xs ++ ys) = rangesUnion xs ∪ rangesUnion ys := by
  induction xs with
  | nil => simp [rangesUnion]
  | cons x xs ih =>
    show rangeOf x ∪ rangesUnion (xs ++ ys) = (rangeOf x ∪ rangesUnion xs) ∪ _
    rw [ih, Finset.union_assoc]

theorem rangeOf_subset_rangesUnion {e : Nat × Nat} {es : List (Nat × Nat)}
    (h : e ∈ es) : rangeOf e ⊆ rangesUnion es := by
  induction es with
  | nil => cases h
  | cons x xs ih =>
    rcases List.mem_cons.mp h with h | h
    · subst h
      exact Finset.subset_union_left
    · exact (ih h).trans Finset.subset_union_right

theorem layoutInv_step {s : AState}
    (h : s.errors = [] →
      s.occupied = rangesUnion s.emitted
      ∧ List.Pairwise rangesDisjoint s.emitted)
    (st : VStatement) :
    (stepStatement s st).errors = [] →
      (stepStatement s st).occupied = rangesUnion (stepStatement s st).emitted
      ∧ List.Pairwise rangesDisjoint (stepStatement s st).emitted := by
  cases st with
  | equ => exact h
  | endDirective => exact h
  | originChange a => exact h
  | emit label kind length =>
    simp only [stepStatement]
    cases hp : s.pointer with
    | none =>
      intro he
      exact absurd he (by simp)
    | some p =>
      dsimp only
      cases label with
      | none =>
        dsimp only
        by_cases hrange : p + length > MAX_MEMORY_ADDRESS
        · rw [if_pos hrange]
          intro he
          exact absurd he (by simp)
        · rw [if_neg hrange]
          dsimp only
          intro he
          rw [List.append_eq_nil] at he
          obtain ⟨he1, he2⟩ := he
          obtain ⟨hocc, hpw⟩ := h he1
          by_cases hcol : ∃ a, p ≤ a ∧ a < p + length ∧ a ∈ s.occupied
          · obtain ⟨a, ha1, ha2, ha3⟩ := hcol
            rw [occupyLoop_collision (kind == .instr) length p
              s.occupied s.codeMemory a ha1 ha2 ha3] at he2
            exact absurd he2 (by simp)
          · push_neg at hcol
            rw [occupyLoop_no_collision (kind == .instr) length p
              s.occupied s.codeMemory (fun a h1 h2 => hcol a h1 h2)]
            dsimp only
            constructor
            · rw [rangesUnion_append, hocc]
              show _ = _ ∪ (rangeOf (p, length) ∪ ∅)
              rw [Finset.union_empty]
              rfl
            · rw [List.pairwise_append]
              refine ⟨hpw, List.pairwise_singleton _ _, ?_⟩
              intro a ha b hb
              rcases List.mem_singleton.mp hb with rfl
              rw [rangesDisjoint, Finset.disjoint_left]
              intro x hxa hxb
              have hx1 : x ∈ rangesUnion s.emitted :=
                rangeOf_subset_rangesUnion ha hxa
              rw [← hocc] at hx1
              rw [rangeOf, Finset.mem_Ico] at hxb
              exact hcol x hxb.1 hxb.2 hx1
      | some l =>
        dsimp only
        by_cases hrange : p + length > MAX_MEMORY_ADDRESS
        · rw [if_pos hrange]
          intro he
          exact absurd he (by simp)
        · rw [if_neg hrange]
          dsimp only
          intro he
          rw [List.append_eq_nil] at he
          obtain ⟨he1, he2⟩ := he
          obtain ⟨hocc, hpw⟩ := h he1
          by_cases hcol : ∃ a, p ≤ a ∧ a < p + length ∧ a ∈ s.occupied
          · obtain ⟨a, ha1, ha2, ha3⟩ := hcol
            rw [occupyLoop_collision (kind == .instr) length p
              s.occupied s.codeMemory a ha1 ha2 ha3] at he2
            exact absurd he2 (by simp)
          · push_neg at hcol
            rw [occupyLoop_no_collision (kind == .instr) length p
              s.occupied s.codeMemory (fun a h1 h2 => hcol a h1 h2)]
            dsimp only
            constructor
            · rw [rangesUnion_append, hocc]
              show _ = _ ∪ (rangeOf (p, length) ∪ ∅)
              rw [Finset.union_empty]
              rfl
            · rw [List.pairwise_append]
              refine ⟨hpw, List.pairwise_singleton _ _, ?_⟩
              intro a ha b hb
              rcases List.mem_singleton.mp hb with rfl
              rw [rangesDisjoint, Finset.disjoint_left]
              intro x hxa hxb
              have hx1 : x ∈ rangesUnion s.emitted :=
                rangeOf_subset_rangesUnion ha hxa
              rw [← hocc] at hx1
              rw [rangeOf, Finset.mem_Ico] at hxb
              exact hcol x hxb.1 hxb.2 hx1

/-- C6: (a) for every program that `computeAddresses` accepts (no errors),
the occupied-address set is exactly the union of `[start, start+length)`
over the emitted statements, and those ranges are pairwise disjoint; and
(b) a statement placed at a pointer whose in-bounds range overlaps an
already-occupied address is rejected with the `occupied-address` error. -/
theorem c6_layout_exact (stmts : List VStatement) :
    ((computeAddresses stmts).errors = [] →
      (computeAddresses stmts).occupied
        = rangesUnion (computeAddresses stmts).emitted
      ∧ List.Pairwise rangesDisjoint (computeAddresses stmts).emitted)
    ∧ (∀ (s : AState) (label : Option String) (kind : EmitKind)
        (length p : Nat),
        s.pointer = some p → p + length ≤ MAX_MEMORY_ADDRESS →
        (∃ a, p ≤ a ∧ a < p + length ∧ a ∈ s.occupied) →
        AddrError.occupiedAddress
          ∈ (stepStatement s (.emit label kind length)).errors) := by
  constructor
  · rw [computeAddresses]
    have h0 : initialAState.errors = [] →
        initialAState.occupied = rangesUnion initialAState.emitted
        ∧ List.Pairwise rangesDisjoint initialAState.emitted :=
      fun _ => ⟨rfl, List.Pairwise.nil⟩
    generalize initialAState = t at h0 ⊢
    induction stmts generalizing t with
    | nil => exact h0
    | cons st rest ih =>
      rw [List.foldl_cons]
      exact ih _ (layoutInv_step h0 st)
  · intro s label kind length p hp hrange ⟨a, ha1, ha2, ha3⟩
    simp only [stepStatement]
    rw [hp]
    dsimp only
    cases label <;> dsimp only <;>
      rw [if_neg (by omega)] <;> dsimp only <;>
      rw [occupyLoop_collision (kind == .instr) length p
        s.occupied s.codeMemory a ha1 ha2 ha3] <;>
      simp

/-- Witness for C6: the two-statement layout `layoutExample` is accepted and
its occupied set is the exact disjoint union of its statement ranges; and
placing a one-byte statement at the already-occupied address 1000h
(`collisionState`) yields the `occupied-address` error. -/
theorem c6_layout_exact_witness :
    ((computeAddresses layoutExample).occupied
        = rangesUnion (computeAddresses layoutExample).emitted
      ∧ List.Pairwise rangesDisjoint (computeAddresses layoutExample).emitted)
    ∧ AddrError.occupiedAddress
        ∈ (stepStatement collisionState (.emit none .DB 1)).errors :=
  ⟨(c6_layout_exact layoutExample).1 (by decide),
   (c6_layout_exact layoutExample).2 collisionState none .DB 1 0x1000
     (by decide) (by decide) ⟨0x1000, by decide, by decide, by decide⟩⟩

/-- C7 (evaluation at the failing input): `ORG 3FFEh; DW 0` is rejected with
`instruction-out-of-range` (the code compares the one-past-end pointer
4000h against the last valid address 3FFFh), although both of its bytes
(3FFEh and 3FFFh) lie inside memory; `ORG 3FFFh; DW 0` is rejected the same
way, as the claim states. -/
theorem c7_org_boundary_eval :
    (computeAddresses
      [.originChange 0x3FFE, .emit none .DW 2, .endDirective]).errors
      = [.instructionOutOfRange]
    ∧ (computeAddresses
      [.originChange 0x3FFF, .emit none .DW 2, .endDirective]).errors
      = [.instructionOutOfRange] := by
  decide

/-- C4: after any sequence of `request`, `cancel`, `update` and EOI-write
operations starting from the initial PIC state (whatever the CPU-side state),
the ISR register has at most one bit set. -/
theorem c4_isr_at_most_one_bit (s : CState) (ops : List PICOp) :
    atMostOneBit (runPICOps ops (withInitialPIC s)).pic.ISR := by
  have h0 : atMostOneBit (withInitialPIC s).pic.ISR := atMostOneBit_zero
  rw [runPICOps]
  generalize withInitialPIC s = t at h0 ⊢
  induction ops generalizing t with
  | nil => exact h0
  | cons op rest ih =>
    rw [List.foldl_cons]
    exact ih _ (applyPICOp_ISR op h0)

end VonSim.Legacy

namespace VonSim.AppCompiler

/-- C8 (amended): for every unary instruction the validator accepts, the
recorded encoded length is 2 bytes for a register operand, 1 byte for
`[BX]`, and 3 bytes for a direct memory address or a data label — the claim
said 1 byte for registers, but the code records 2. -/
theorem c8_unary_length (instr : UnaryOp) (label : Option String)
    (labels : String → Option LabelType) (op : Operand)
    (m : ValidatedUnaryInstruction)
    (h : validateUnaryInstruction instr label [op] labels = .ok m) :
    m.meta.length = expectedUnaryLength op := by
  cases op with
  | register v =>
    simp only [validateUnaryInstruction] at h
    injection h with h
    subst h
    rfl
  | address size mode =>
    cases mode with
    | direct value =>
      cases size with
      | auto => exact Except.noConfusion h
      | byte =>
        injection h with h
        subst h
        rfl
      | word =>
        injection h with h
        subst h
        rfl
    | indirect =>
      cases size with
      | auto => exact Except.noConfusion h
      | byte =>
        injection h with h
        subst h
        rfl
      | word =>
        injection h with h
        subst h
        rfl
  | expr e =>
    cases e with
    | numberLiteral value => exact Except.noConfusion h
    | unaryOp o r => exact Except.noConfusion h
    | binaryOp o l r => exact Except.noConfusion h
    | label l off =>
      cases off with
      | true => exact Except.noConfusion h
      | false =>
        simp only [validateUnaryInstruction] at h
        cases hl : labels l with
        | none => rw [hl] at h; exact Except.noConfusion h
        | some t =>
          rw [hl] at h
          cases t with
          | DB =>
            injection h with h
            subst h
            rfl
          | DW =>
            injection h with h
            subst h
            rfl
          | instruction => exact Except.noConfusion h
          | EQU => exact Except.noConfusion h

/-- Witness for C8's amended length table: `INC AX` validates with
length 2 and `INC [BX]` (byte-sized) with length 1. -/
theorem c8_unary_length_witness :
    ({ type := UnaryOp.INC
       meta := { label := none, start := 0, length := 2 }
       opSize := OpSize.word
       out := UnaryOut.register Reg.AX } :
        ValidatedUnaryInstruction).meta.length
      = expectedUnaryLength (.register .AX)
    ∧ ({ type := UnaryOp.INC
         meta := { label := none, start := 0, length := 1 }
         opSize := OpSize.byte
         out := UnaryOut.memoryIndirect } :
        ValidatedUnaryInstruction).meta.length
      = expectedUnaryLength (.address .byte .indirect) :=
  ⟨c8_unary_length .INC none emptyLabels (.register .AX) _ rfl,
   c8_unary_length .INC none emptyLabels (.address .byte .indirect) _ rfl⟩

/-- C8 (counterexample to the claim as stated): validating `INC AX` records
an encoded length of 2 bytes, not the 1 byte the claim asserts for register
operands. -/
theorem c8_register_length_counterexample :
    (validateUnaryInstruction .INC none [.register .AX] emptyLabels).toOption.map
        (fun m => m.meta.length) = some 2
    ∧ ¬((validateUnaryInstruction .INC none
        [.register .AX] emptyLabels).toOption.map
        (fun m => m.meta.length) = some 1) := by
  decide

end VonSim.AppCompiler

namespace VonSim.Next

theorem decode_split_encode (f : NFlags) :
    decodeFlags (encodeFlags f % 256 + 256 * (encodeFlags f / 256 % 256))
      = f := by
  rcases f with ⟨c, z, g, i, o⟩
  cases c <;> cases z <;> cases g <;> cases i <;> cases o <;> rfl

/-- C5 (amended): an `INT 7` that completes without error restores FLAGS
(including IF) exactly; an `INT 6` that completes without error restores
FLAGS provided its store address `[BX]` does not overlap the stack word
holding the saved FLAGS (`BX ∉ {SP−2, SP−1}`).  Both push FLAGS, clear IF
while they run, and pop FLAGS at the end, without going through the IVT. -/
theorem c5_int67_flags (s : NState) (char : Nat) :
    (∀ out r, executeINT7 s = some (out, r) → r.flags = s.flags)
    ∧ (∀ r, executeINT6 s char = some r →
        s.BX ≠ s.SP - 2 → s.BX ≠ s.SP - 1 → r.flags = s.flags) := by
  constructor
  · intro out r h
    rw [executeINT7] at h
    by_cases hsp : s.SP < 2
    · rw [pushToStack, if_pos hsp] at h
      exact Option.noConfusion h
    · rw [pushToStack, if_neg hsp] at h
      dsimp only at h
      split at h
      · exact Option.noConfusion h
      · split at h
        · exact Option.noConfusion h
        · next w s4 heq =>
          injection h with h
          rw [popFromStack] at heq
          split at heq
          · exact Option.noConfusion heq
          · injection heq with heq
            injection heq with hw hs4
            subst hw
            subst hs4
            injection h with h1 h2
            subst h2
            dsimp only
            rw [if_pos rfl, if_neg (show s.SP - 2 + 1 ≠ s.SP - 2 by omega),
              if_pos rfl]
            exact decode_split_encode s.flags
  · intro r h hBX2 hBX1
    rw [executeINT6] at h
    by_cases hsp : s.SP < 2
    · rw [pushToStack, if_pos hsp] at h
      exact Option.noConfusion h
    · rw [pushToStack, if_neg hsp] at h
      dsimp only at h
      split at h
      · exact Option.noConfusion h
      · next s3 heqW =>
        rw [memWrite] at heqW
        split at heqW
        · injection heqW with heqW
          subst heqW
          split at h
          · exact Option.noConfusion h
          · next w s4 heq =>
            injection h with h
            rw [popFromStack] at heq
            split at heq
            · exact Option.noConfusion heq
            · injection heq with heq
              injection heq with hw hs4
              subst hw
              subst hs4
              subst h
              dsimp only
              rw [if_neg (show s.SP - 2 ≠ s.BX from fun e => hBX2 e.symm),
                if_neg (show s.SP - 2 + 1 ≠ s.BX from fun e =>
                  hBX1 (by omega)),
                if_pos rfl, if_neg (show s.SP - 2 + 1 ≠ s.SP - 2 by omega),
                if_pos rfl]
              exact decode_split_encode s.flags
        · exact Option.noConfusion heqW

/-- Witness for C5 at `int6Example` (BX = 1000h, far from the stack):
both `INT 6` (fed 42h) and `INT 7` complete and restore FLAGS exactly. -/
theorem c5_int67_flags_witness :
    (executeINT6 int6Example 0x42).map (fun r => r.flags)
      = some int6Example.flags
    ∧ (executeINT7 int6Example).map (fun p => p.2.flags)
      = some int6Example.flags := by
  constructor
  · have hs : (executeINT6 int6Example 0x42).isSome = true := by decide
    cases hev : executeINT6 int6Example 0x42 with
    | none => rw [hev] at hs; exact Bool.noConfusion hs
    | some r =>
      rw [Option.map_some']
      rw [(c5_int67_flags int6Example 0x42).2 r hev (by decide) (by decide)]
  · have hs : (executeINT7 int6Example).isSome = true := by decide
    cases hev : executeINT7 int6Example with
    | none => rw [hev] at hs; exact Bool.noConfusion hs
    | some p =>
      rw [Option.map_some']
      rw [(c5_int67_flags int6Example 0).1 p.1 p.2 (by rw [hev])]

/-- C5 (counterexample to the claim as stated): at `clobberExample`
(`BX = SP − 2 = 3FFEh`) the `INT 6` routine completes without any stack or
memory error, yet FLAGS after differs from FLAGS before: the stored
character overwrites the low byte of the saved FLAGS on the stack, so the
popped CF is 0 while it was 1 before the instruction. -/
theorem c5_int6_clobber_counterexample :
    (executeINT6 clobberExample 0).isSome = true
    ∧ (executeINT6 clobberExample 0).map (fun r => r.flags.CF) = some false
    ∧ clobberExample.flags.CF = true := by
  decide

end VonSim.Next

namespace VonSim.Legacy

theorem skipEOLs_append {eols : List Token}
    (heols : ∀ t ∈ eols, t.type = .EOL) (rest : List Token) :
    skipEOLs (eols ++ rest) = skipEOLs rest := by
  induction eols with
  | nil => rfl
  | cons t l ih =>
    rw [List.cons_append, skipEOLs, heols t (List.mem_cons_self t l),
      if_pos (show (TokT.EOL == TokT.EOL) = true from rfl)]
    exact ih fun x hx => heols x (List.mem_cons_of_mem t hx)

theorem parseLabel_skip (stmts : List PStatement) (lex lexc : String)
    (p q : Nat) {eols : List Token} (heols : ∀ t ∈ eols, t.type = .EOL)
    (rest : List Token) :
    parseLabel stmts
      (⟨.IDENTIFIER, lex, p⟩ :: ⟨.COLON, lexc, q⟩ :: (eols ++ rest))
      = parseLabel stmts (⟨.IDENTIFIER, lex, p⟩ :: ⟨.COLON, lexc, q⟩ :: rest) := by
  simp only [parseLabel, checkT, peekT, peekNextT, advanceT, beq_self_eq_true,
    Bool.and_self, if_true]
  rw [skipEOLs_append heols]

/-- C10: a label on a line of its own.  When `label:` is followed by any
nonempty run of end-of-line tokens, the parser produces exactly the same
result as when the label directly precedes the next statement's tokens:
`label()` consumes the identifier and colon and then skips every EOL, so the
label is attached to the next data directive or instruction statement
exactly as if it were written on that statement's line. -/
theorem c10_label_own_line (fuel : Nat) (lex lexc : String) (p q : Nat)
    (eols : List Token) (heols : ∀ t ∈ eols, t.type = .EOL)
    (hne : eols ≠ []) (rest : List Token) (stmts : List PStatement) :
    parseLoop fuel
      (⟨.IDENTIFIER, lex, p⟩ :: ⟨.COLON, lexc, q⟩ :: (eols ++ rest)) stmts
      = parseLoop fuel
        (⟨.IDENTIFIER, lex, p⟩ :: ⟨.COLON, lexc, q⟩ :: rest) stmts := by
  cases fuel with
  | zero => rfl
  | succ fuel =>
    simp only [parseLoop]
    rw [parseLabel_skip stmts lex lexc p q heols rest]
    rfl

/-- Witness for C10: parsing `X:⏎HLT⏎END` (label on its own line) yields
exactly the same statements as `X: HLT⏎END`, with the label `X` attached to
the `HLT` instruction. -/
theorem c10_label_own_line_witness :
    parseLoop 7 labelOwnLineTokens [] = parseLoop 7 labelSameLineTokens []
    ∧ (parseTokens labelOwnLineTokens).toOption
      = some [.instruction .HLT (some "X") [] (3, 6), .endStatement (7, 10)] := by
  constructor
  · exact c10_label_own_line 7 "X" ":" 0 1 [⟨.EOL, "\n", 2⟩]
      (by decide) (by decide)
      [⟨.instr .HLT, "hlt", 3⟩, ⟨.EOL, "\n", 6⟩, ⟨.END, "end", 7⟩,
       ⟨.EOF, "", 10⟩] []
  · decide

end VonSim.Legacy
